import Mathlib

/- Formal model of the snapshot storage layer of the city-cycling repository:
   the TSV snapshot codec (internal/storage/r2.go and internal/storage/tsv.go),
   the timestamped naming scheme, the filesystem and object-store backends,
   the nearest-timestamp resolver and the history cache of the web handler. -/

namespace CityCycling

/-- Go strings are modelled as lists of characters (all data handled by the
storage layer is ASCII except station names, treated as uninterpreted sequences). -/
abbrev Str := List Char

/-- Split on a separator character, mirroring Go strings.Split: the result has
one more part than there are separator occurrences. -/
def splitOnChar (sep : Char) : Str → List Str
  | [] => [[]]
  | c :: cs =>
    match splitOnChar sep cs with
    | [] => [[]]
    | t :: ts => if c = sep then [] :: t :: ts else (c :: t) :: ts

/-- Join parts with a separator (Go strings.Join). -/
def joinSep (sep : Char) : List Str → Str
  | [] => []
  | [x] => x
  | x :: y :: xs => x ++ sep :: joinSep sep (y :: xs)

theorem splitOnChar_ne_nil (sep : Char) (l : Str) : splitOnChar sep l ≠ [] := by
  cases l with
  | nil => simp [splitOnChar]
  | cons c cs =>
    simp only [splitOnChar]
    cases h : splitOnChar sep cs with
    | nil => simp
    | cons t ts =>
      dsimp only
      split <;> simp

theorem splitOnChar_no_sep (sep : Char) (l : Str) (h : sep ∉ l) :
    splitOnChar sep l = [l] := by
  induction l with
  | nil => simp [splitOnChar]
  | cons c cs ih =>
    simp only [List.mem_cons] at h
    push_neg at h
    simp only [splitOnChar, ih h.2]
    rw [if_neg (by intro hc; exact h.1 hc.symm)]

theorem splitOnChar_sep_append (sep : Char) (a b : Str) (ha : sep ∉ a) :
    splitOnChar sep (a ++ sep :: b) = a :: splitOnChar sep b := by
  induction a with
  | nil =>
    simp only [List.nil_append, splitOnChar]
    cases h : splitOnChar sep b with
    | nil => exact absurd h (splitOnChar_ne_nil sep b)
    | cons t ts => simp
  | cons c cs ih =>
    simp only [List.mem_cons] at ha
    push_neg at ha
    show splitOnChar sep (c :: (cs ++ sep :: b)) = (c :: cs) :: splitOnChar sep b
    simp only [splitOnChar]
    rw [ih ha.2]
    dsimp only
    rw [if_neg (fun hc => ha.1 hc.symm)]

theorem splitOnChar_joinSep (sep : Char) (parts : List Str)
    (h : ∀ p ∈ parts, sep ∉ p) (hne : parts ≠ []) :
    splitOnChar sep (joinSep sep parts) = parts := by
  induction parts with
  | nil => exact absurd rfl hne
  | cons x xs ih =>
    cases xs with
    | nil =>
      simp only [joinSep]
      exact splitOnChar_no_sep sep x (h x (by simp))
    | cons y ys =>
      simp only [joinSep]
      rw [splitOnChar_sep_append sep x _ (h x (by simp))]
      rw [ih (fun p hp => h p (List.mem_cons_of_mem x hp)) (by simp)]

/-- Drop one trailing carriage return, mirroring the dropCR step of Go
bufio.ScanLines. -/
def dropCR (l : Str) : Str :=
  if l.getLast? = some '\r' then l.dropLast else l

/-- The sequence of lines a Go bufio.Scanner (with the default ScanLines split
function) yields from the given data: newline-separated tokens, a final empty
token after a trailing newline is not produced, and each line has one trailing
carriage return removed. -/
def goLines (data : Str) : List Str :=
  let parts := splitOnChar '\n' data
  let parts := if parts.getLast? = some [] then parts.dropLast else parts
  parts.map dropCR

theorem dropCR_eq_self (l : Str) (h : l.getLast? ≠ some '\r') : dropCR l = l := by
  simp [dropCR, h]

theorem goLines_of_lines (lines : List Str)
    (hnl : ∀ l ∈ lines, ('\n' : Char) ∉ l)
    (hcr : ∀ l ∈ lines, l.getLast? ≠ some '\r') :
    goLines ((lines.map (· ++ ['\n'])).flatten) = lines := by
  have key : splitOnChar '\n' ((lines.map (· ++ ['\n'])).flatten) = lines ++ [[]] := by
    induction lines with
    | nil => simp [splitOnChar]
    | cons x xs ih =>
      simp only [List.map_cons, List.flatten_cons, List.append_assoc, List.singleton_append]
      rw [splitOnChar_sep_append '\n' x _ (hnl x (by simp))]
      rw [ih (fun l hl => hnl l (List.mem_cons_of_mem x hl))
            (fun l hl => hcr l (List.mem_cons_of_mem x hl))]
      simp
  simp only [goLines, key]
  rw [if_pos (by simp)]
  rw [List.dropLast_concat]
  rw [List.map_congr_left (fun l hl => dropCR_eq_self l (hcr l hl))]
  exact List.map_id lines

/-- Decimal digit character (codepoint 48 + d), as produced by Go's integer
and zero-padded formatting. -/
def digitChar (d : Nat) : Char := Char.ofNat (48 + d)

/-- Whether a character is an ASCII decimal digit. -/
def isDigitCh (c : Char) : Bool := 48 ≤ c.toNat && c.toNat ≤ 57

/-- Numeric value of an ASCII digit character. -/
def digitVal (c : Char) : Nat := c.toNat - 48

/-- Digit-emitting loop for decimal numerals, structurally recursive on a
fuel bound so that it evaluates by reduction; with fuel at least n it
produces the decimal digits of n, most significant first. -/
def natCharsAux : Nat → Nat → Str
  | 0, n => [digitChar n]
  | fuel + 1, n =>
    if n < 10 then [digitChar n]
    else natCharsAux fuel (n / 10) ++ [digitChar (n % 10)]

/-- Decimal numeral of a natural number, as written by Go fmt %d. -/
def natChars (n : Nat) : Str := natCharsAux n n

theorem natCharsAux_fuel_irrel : ∀ (fuel fuel2 n : Nat), n ≤ fuel → n ≤ fuel2 →
    natCharsAux fuel n = natCharsAux fuel2 n := by
  intro fuel
  induction fuel with
  | zero =>
    intro fuel2 n h1 h2
    have hn : n = 0 := by omega
    subst hn
    cases fuel2 with
    | zero => rfl
    | succ f => rw [natCharsAux, natCharsAux, if_pos (by omega)]
  | succ f ih =>
    intro fuel2 n h1 h2
    cases fuel2 with
    | zero =>
      have hn : n = 0 := by omega
      subst hn
      rw [natCharsAux, natCharsAux, if_pos (by omega)]
    | succ f2 =>
      rw [natCharsAux, natCharsAux]
      by_cases hlt : n < 10
      · rw [if_pos hlt, if_pos hlt]
      · rw [if_neg hlt, if_neg hlt]
        rw [ih f2 (n / 10) (by omega) (by omega)]

/-- The defining recurrence of natChars. -/
theorem natChars_eq (n : Nat) :
    natChars n = if n < 10 then [digitChar n] else natChars (n / 10) ++ [digitChar (n % 10)] := by
  rw [natChars, natChars]
  cases hn : n with
  | zero => rfl
  | succ m =>
    rw [natCharsAux]
    by_cases hlt : m + 1 < 10
    · rw [if_pos hlt, if_pos hlt]
    · rw [if_neg hlt, if_neg hlt]
      rw [natCharsAux_fuel_irrel m ((m + 1) / 10) ((m + 1) / 10) (by omega) (by omega)]

/-- Decimal numeral of an integer, as written by Go fmt %d. -/
def intChars (n : Int) : Str :=
  if n < 0 then '-' :: natChars n.natAbs else natChars n.toNat

/-- Two-digit zero-padded numeral (Go format verbs 01, 02, 15, 04, 05). -/
def pad2 (n : Nat) : Str := [digitChar (n / 10), digitChar (n % 10)]

/-- Four-digit zero-padded numeral (Go format verb 2006). -/
def pad4 (n : Nat) : Str :=
  [digitChar (n / 1000), digitChar (n / 100 % 10), digitChar (n / 10 % 10), digitChar (n % 10)]

/-- Six-digit zero-padded numeral (the fractional part of Go fmt %.6f). -/
def pad6 (n : Nat) : Str :=
  [digitChar (n / 100000), digitChar (n / 10000 % 10), digitChar (n / 1000 % 10),
   digitChar (n / 100 % 10), digitChar (n / 10 % 10), digitChar (n % 10)]

/-- Value of a digit string, most significant first. -/
def natOfDigits (l : Str) : Nat := l.foldl (fun a c => 10 * a + digitVal c) 0

theorem digitChar_toNat (d : Nat) (h : d < 10) : (digitChar d).toNat = 48 + d := by
  interval_cases d <;> rfl

theorem isDigitCh_digitChar (d : Nat) (h : d < 10) : isDigitCh (digitChar d) = true := by
  interval_cases d <;> rfl

theorem digitVal_digitChar (d : Nat) (h : d < 10) : digitVal (digitChar d) = d := by
  interval_cases d <;> rfl

theorem natOfDigits_append_one (l : Str) (c : Char) :
    natOfDigits (l ++ [c]) = 10 * natOfDigits l + digitVal c := by
  simp [natOfDigits, List.foldl_append]

theorem natOfDigits_natChars (n : Nat) : natOfDigits (natChars n) = n := by
  induction n using Nat.strong_induction_on with
  | _ n ih =>
    rw [natChars_eq]
    split
    · next h =>
      simp [natOfDigits, digitVal_digitChar n h]
    · next h =>
      rw [natOfDigits_append_one]
      rw [ih (n / 10) (Nat.div_lt_self (by omega) (by omega))]
      rw [digitVal_digitChar _ (Nat.mod_lt n (by omega))]
      omega

theorem natChars_ne_nil (n : Nat) : natChars n ≠ [] := by
  rw [natChars_eq]
  split <;> simp

theorem natChars_all_digits (n : Nat) : ∀ c ∈ natChars n, isDigitCh c = true := by
  induction n using Nat.strong_induction_on with
  | _ n ih =>
    rw [natChars_eq]
    split
    · next h =>
      intro c hc
      simp only [List.mem_singleton] at hc
      subst hc
      exact isDigitCh_digitChar n h
    · next h =>
      intro c hc
      simp only [List.mem_append, List.mem_singleton] at hc
      rcases hc with hc | hc
      · exact ih (n / 10) (Nat.div_lt_self (by omega) (by omega)) c hc
      · subst hc
        exact isDigitCh_digitChar _ (Nat.mod_lt n (by omega))

theorem isDigitCh_toNat_bounds (c : Char) (h : isDigitCh c = true) :
    48 ≤ c.toNat ∧ c.toNat ≤ 57 := by
  simp only [isDigitCh, Bool.and_eq_true, decide_eq_true_eq] at h
  exact h

/-- A calendar date-time at second precision (the fields of a Go time.Time in
UTC, ignoring the sub-second part). -/
structure DateTime where
  year : Nat
  month : Nat
  day : Nat
  hour : Nat
  minute : Nat
  second : Nat
deriving DecidableEq, Repr

/-- The zero value of Go time.Time: January 1, year 1, 00:00:00 UTC. -/
def zeroTime : DateTime := ⟨1, 1, 1, 0, 0, 0⟩

/-- A UTC instant: a second-precision date-time plus a sub-second part.
time.Now() carries nanoseconds; both output formats used by WriteStations
drop them. -/
structure Instant where
  dt : DateTime
  nsec : Nat
deriving DecidableEq, Repr

/-- Gregorian leap-year rule (Go time.isLeap). -/
def isLeapYear (y : Nat) : Bool := (y % 4 == 0 && y % 100 != 0) || y % 400 == 0

/-- Days in a month (Go time.daysIn). -/
def daysInMonth (y m : Nat) : Nat :=
  if m = 2 then (if isLeapYear y then 29 else 28)
  else if m = 4 ∨ m = 6 ∨ m = 9 ∨ m = 11 then 30
  else 31

/-- Field ranges accepted by Go time.Parse for the layouts used here: a
four-digit year and in-range month, day (checked against the month's length),
hour, minute and second. -/
def validDateTime (dt : DateTime) : Bool :=
  decide (dt.year ≤ 9999) && decide (1 ≤ dt.month) && decide (dt.month ≤ 12) &&
  decide (1 ≤ dt.day) && decide (dt.day ≤ daysInMonth dt.year dt.month) &&
  decide (dt.hour ≤ 23) && decide (dt.minute ≤ 59) && decide (dt.second ≤ 59)

/-- Go timestamp.Format("20060102_150405"): the compact UTC timestamp embedded
in snapshot names. -/
def formatCompact (dt : DateTime) : Str :=
  pad4 dt.year ++ pad2 dt.month ++ pad2 dt.day ++ ['_'] ++
  pad2 dt.hour ++ pad2 dt.minute ++ pad2 dt.second

/-- Go timestamp.Format(time.RFC3339) for a UTC time: the timestamp written in
the first column of every data row. -/
def formatRFC3339 (dt : DateTime) : Str :=
  pad4 dt.year ++ ['-'] ++ pad2 dt.month ++ ['-'] ++ pad2 dt.day ++ ['T'] ++
  pad2 dt.hour ++ [':'] ++ pad2 dt.minute ++ [':'] ++ pad2 dt.second ++ ['Z']

/-- Read one ASCII digit. -/
def readDigit (c : Char) : Option Nat :=
  if isDigitCh c then some (digitVal c) else none

/-- Read a two-digit zero-padded field. -/
def parse2 (c1 c2 : Char) : Option Nat := do
  let a ← readDigit c1
  let b ← readDigit c2
  pure (10 * a + b)

/-- Read a four-digit zero-padded field. -/
def parse4 (c1 c2 c3 c4 : Char) : Option Nat := do
  let a ← readDigit c1
  let b ← readDigit c2
  let c ← readDigit c3
  let d ← readDigit c4
  pure (1000 * a + 100 * b + 10 * c + d)

/-- Go time.Parse("20060102_150405", s): accepts exactly the fifteen-character
compact form with in-range fields, rejecting anything else (the fractional
second special case of time.Parse never applies to the names handled here). -/
def parseCompact (s : Str) : Option DateTime :=
  match s with
  | [y1, y2, y3, y4, mo1, mo2, d1, d2, u, h1, h2, mi1, mi2, s1, s2] =>
    if u = '_' then do
      let y ← parse4 y1 y2 y3 y4
      let mo ← parse2 mo1 mo2
      let d ← parse2 d1 d2
      let h ← parse2 h1 h2
      let mi ← parse2 mi1 mi2
      let se ← parse2 s1 s2
      let dt : DateTime := ⟨y, mo, d, h, mi, se⟩
      if validDateTime dt then some dt else none
    else none
  | _ => none

/-- Whether the tail after the seconds field is a valid RFC 3339 zone
designator: Z, or a sign with an in-range hh:mm offset (Go's strict RFC 3339
parser). -/
def rfc3339Zone (rest : Str) : Bool :=
  match rest with
  | ['Z'] => true
  | [c, o1, o2, ':', o3, o4] =>
    (c = '+' || c = '-') && isDigitCh o1 && isDigitCh o2 && isDigitCh o3 && isDigitCh o4 &&
    decide (10 * digitVal o1 + digitVal o2 ≤ 23) && decide (10 * digitVal o3 + digitVal o4 ≤ 59)
  | _ => false

/-- Whether the tail after the seconds field is an optional fractional second
followed by a valid zone. -/
def rfc3339Tail (rest : Str) : Bool :=
  match rest with
  | '.' :: more =>
    !(more.takeWhile isDigitCh).isEmpty && rfc3339Zone (more.dropWhile isDigitCh)
  | _ => rfc3339Zone rest

/-- Go time.Parse(time.RFC3339, s), at the precision of this model: the civil
date-time fields are returned and must be in range; the fractional second and
the numeric zone offset are validated syntactically but not retained (every
timestamp this codec itself writes uses the Z zone and no fraction). -/
def parseRFC3339 (s : Str) : Option DateTime :=
  match s with
  | y1 :: y2 :: y3 :: y4 :: '-' :: mo1 :: mo2 :: '-' :: d1 :: d2 :: 'T' ::
      h1 :: h2 :: ':' :: mi1 :: mi2 :: ':' :: s1 :: s2 :: rest =>
    if rfc3339Tail rest then do
      let y ← parse4 y1 y2 y3 y4
      let mo ← parse2 mo1 mo2
      let d ← parse2 d1 d2
      let h ← parse2 h1 h2
      let mi ← parse2 mi1 mi2
      let se ← parse2 s1 s2
      let dt : DateTime := ⟨y, mo, d, h, mi, se⟩
      if validDateTime dt then some dt else none
    else none
  | _ => none

theorem readDigit_digitChar (d : Nat) (h : d < 10) : readDigit (digitChar d) = some d := by
  interval_cases d <;> rfl

theorem parse2_pad2 (n : Nat) (h : n < 100) :
    parse2 (digitChar (n / 10)) (digitChar (n % 10)) = some n := by
  rw [parse2, readDigit_digitChar _ (by omega), readDigit_digitChar _ (Nat.mod_lt n (by omega))]
  simp only [Option.bind_eq_bind, Option.some_bind]
  congr 1
  omega

theorem parse4_pad4 (n : Nat) (h : n < 10000) :
    parse4 (digitChar (n / 1000)) (digitChar (n / 100 % 10)) (digitChar (n / 10 % 10))
      (digitChar (n % 10)) = some n := by
  rw [parse4, readDigit_digitChar _ (by omega), readDigit_digitChar _ (by omega),
      readDigit_digitChar _ (by omega), readDigit_digitChar _ (Nat.mod_lt n (by omega))]
  simp only [Option.bind_eq_bind, Option.some_bind]
  congr 1
  omega

theorem validDateTime_bounds (dt : DateTime) (h : validDateTime dt = true) :
    dt.year ≤ 9999 ∧ 1 ≤ dt.month ∧ dt.month ≤ 12 ∧ 1 ≤ dt.day ∧
    dt.day ≤ daysInMonth dt.year dt.month ∧ dt.hour ≤ 23 ∧ dt.minute ≤ 59 ∧ dt.second ≤ 59 := by
  simp only [validDateTime, Bool.and_eq_true, decide_eq_true_eq] at h
  tauto

theorem daysInMonth_le_31 (y m : Nat) : daysInMonth y m ≤ 31 := by
  rw [daysInMonth]
  split
  · split <;> omega
  · split <;> omega

theorem parseCompact_formatCompact (dt : DateTime) (h : validDateTime dt = true) :
    parseCompact (formatCompact dt) = some dt := by
  obtain ⟨hy, hmo1, hmo2, hd1, hd2, hh, hmi, hs⟩ := validDateTime_bounds dt h
  have hd31 : dt.day ≤ 31 := le_trans hd2 (daysInMonth_le_31 _ _)
  simp only [formatCompact, pad4, pad2, List.cons_append, List.nil_append]
  simp only [parseCompact]
  rw [if_pos trivial]
  rw [parse4_pad4 _ (by omega), parse2_pad2 dt.month (by omega), parse2_pad2 dt.day (by omega),
      parse2_pad2 dt.hour (by omega), parse2_pad2 dt.minute (by omega),
      parse2_pad2 dt.second (by omega)]
  simp only [Option.bind_eq_bind, Option.some_bind]
  rw [if_pos h]

theorem parseRFC3339_formatRFC3339 (dt : DateTime) (h : validDateTime dt = true) :
    parseRFC3339 (formatRFC3339 dt) = some dt := by
  obtain ⟨hy, hmo1, hmo2, hd1, hd2, hh, hmi, hs⟩ := validDateTime_bounds dt h
  have hd31 : dt.day ≤ 31 := le_trans hd2 (daysInMonth_le_31 _ _)
  simp only [formatRFC3339, pad4, pad2, List.cons_append, List.nil_append]
  simp only [parseRFC3339]
  rw [if_pos (by rfl)]
  rw [parse4_pad4 _ (by omega), parse2_pad2 dt.month (by omega), parse2_pad2 dt.day (by omega),
      parse2_pad2 dt.hour (by omega), parse2_pad2 dt.minute (by omega),
      parse2_pad2 dt.second (by omega)]
  simp only [Option.bind_eq_bind, Option.some_bind]
  rw [if_pos h]

/-- Go fmt %.6f rendering of a latitude/longitude, modelled at the wire's
fixed six-decimal precision: coordinates are carried as integer micro-degrees
(the source stores float64; every value the codec emits has exactly six
digits after the decimal point, so micro-degrees carry the wire values
exactly). -/
def microChars (u : Int) : Str :=
  (if u < 0 then ['-'] else []) ++ natChars (u.natAbs / 1000000) ++
    '.' :: pad6 (u.natAbs % 1000000)

/-- Go strconv.Atoi with its error discarded, as in readTSVFile: the whole
cell must be an optionally-signed decimal numeral, anything else (including
an empty cell) leaves the destination at zero. Numerals are modelled as
unbounded integers; on range overflow Go's Atoi returns MaxInt64 or MinInt64
(the discarded error keeps the clamped value), while this model returns the
exact value, so the two agree only on numerals within the int64 range.
Theorems about malformed cells quantify only over cells Atoi rejects for
syntax, where Go also stores zero, and theorems comparing this parser with
goScanInt carry an explicit int64-range hypothesis. -/
def goAtoi (cell : Str) : Int :=
  match cell with
  | [] => 0
  | c :: rest =>
    if c = '+' then (if rest ≠ [] ∧ rest.all isDigitCh then (natOfDigits rest : Int) else 0)
    else if c = '-' then (if rest ≠ [] ∧ rest.all isDigitCh then -(natOfDigits rest : Int) else 0)
    else (if (c :: rest).all isDigitCh then (natOfDigits (c :: rest) : Int) else 0)

/-- Strip one leading sign character, returning the sign and the remainder. -/
def splitSign (l : Str) : Int × Str :=
  match l with
  | [] => (1, [])
  | c :: r => if c = '+' then (1, r) else if c = '-' then (-1, r) else (1, c :: r)

/-- Go fmt.Sscanf with verb %d and its results discarded, as in the R2
GetSnapshot path: leading spaces are skipped, an optionally-signed run of
digits is consumed as the value, everything after the digit run is ignored,
and if no digit is found the destination keeps its zero value. The digit run
is modelled as an unbounded integer; when the run overflows int64 Go's
Sscanf reports a range error and leaves the destination zero, which is not
modelled, so theorems about this parser restrict to cells whose token starts
with no digit (zero in Go and here alike) or to whole numerals within the
int64 range (where Go and this model both return the exact value). -/
def goScanInt (cell : Str) : Int :=
  let p := splitSign (cell.dropWhile (· = ' '))
  if (p.2.takeWhile isDigitCh) = [] then 0
  else p.1 * (natOfDigits (p.2.takeWhile isDigitCh) : Int)

/-- Micro-degree value of a decimal fraction part: the first six fraction
digits, zero-padded on the right. -/
def fracMicro (fp : Str) : Nat :=
  natOfDigits (fp.take 6 ++ List.replicate (6 - fp.length) '0')

/-- Go strconv.ParseFloat with its error discarded, as in readTSVFile,
modelled at six-decimal (micro-degree) fixed-point precision: the whole cell
must be an optionally-signed plain decimal with at least one digit; forms
ParseFloat would also accept (exponents, inf, NaN, hex floats) are not
modelled, and fraction digits beyond the sixth are dropped. Any other cell
leaves the destination at zero. On the unmodelled forms this parser returns
zero while Go returns their value (cell 1e3 is 1000.0 in Go), so theorems
about malformed cells quantify only over cells outside ParseFloat's full
accepted syntax (see floatCandidate), where Go also stores zero; the codec
only emits plain decimals, on which this parser is exact. -/
def goParseFloatMicro (cell : Str) : Int :=
  let p := splitSign cell
  match splitOnChar '.' p.2 with
  | [ip] => if ip ≠ [] ∧ ip.all isDigitCh then p.1 * (natOfDigits ip : Int) * 1000000 else 0
  | [ip, fp] =>
    if (ip ≠ [] ∨ fp ≠ []) ∧ ip.all isDigitCh ∧ fp.all isDigitCh then
      p.1 * ((natOfDigits ip : Int) * 1000000 + (fracMicro fp : Int))
    else 0
  | _ => 0

/-- Go fmt.Sscanf with verb %f, modelled at micro-degree precision: after
skipping leading spaces, an optionally-signed float token (digits, optional
point, more digits) is consumed and everything after it is ignored; no digit
at all leaves the destination at zero. Exponent suffixes accepted by Go's
scanner are not modelled (cell 1e3 scans as 1000.0 in Go but 1.0 here), so
no theorem asserts this parser's value on a cell carrying an exponent; the
codec only emits plain six-decimal cells, on which this parser is exact. -/
def goScanFloatMicro (cell : Str) : Int :=
  let p := splitSign (cell.dropWhile (· = ' '))
  let ip := p.2.takeWhile isDigitCh
  let rest := p.2.dropWhile isDigitCh
  let fp := if rest.headD ' ' = '.' then rest.tail.takeWhile isDigitCh else []
  if ip = [] ∧ fp = [] then 0
  else p.1 * ((natOfDigits ip : Int) * 1000000 + (fracMicro fp : Int))

theorem takeWhile_all {p : Char → Bool} (l : Str) (h : ∀ x ∈ l, p x = true) :
    l.takeWhile p = l := by
  induction l with
  | nil => rfl
  | cons c cs ih =>
    rw [List.takeWhile_cons, h c (by simp)]
    rw [ih (fun x hx => h x (List.mem_cons_of_mem c hx))]
    simp

theorem dropWhile_cons_not {p : Char → Bool} (c : Char) (cs : Str) (hc : p c = false) :
    (c :: cs).dropWhile p = c :: cs := by
  rw [List.dropWhile_cons, hc]
  simp

theorem takeWhile_append_stop {p : Char → Bool} (a : Str) (c : Char) (b : Str)
    (ha : ∀ x ∈ a, p x = true) (hc : p c = false) :
    (a ++ c :: b).takeWhile p = a ∧ (a ++ c :: b).dropWhile p = c :: b := by
  induction a with
  | nil =>
    simp only [List.nil_append]
    rw [List.takeWhile_cons, List.dropWhile_cons, hc]
    simp
  | cons d ds ih =>
    have hd := ha d (by simp)
    obtain ⟨ih1, ih2⟩ := ih (fun x hx => ha x (List.mem_cons_of_mem d hx))
    constructor
    · rw [List.cons_append, List.takeWhile_cons, hd]
      simp [ih1]
    · rw [List.cons_append, List.dropWhile_cons, hd]
      simp [ih2]

theorem natOfDigits_pad6 (m : Nat) (h : m < 1000000) : natOfDigits (pad6 m) = m := by
  simp only [pad6, natOfDigits, List.foldl_cons, List.foldl_nil]
  rw [digitVal_digitChar _ (by omega), digitVal_digitChar _ (by omega),
      digitVal_digitChar _ (by omega), digitVal_digitChar _ (by omega),
      digitVal_digitChar _ (by omega), digitVal_digitChar _ (Nat.mod_lt m (by omega))]
  omega

theorem fracMicro_pad6 (m : Nat) (h : m < 1000000) : fracMicro (pad6 m) = m := by
  have hlen : (pad6 m).length = 6 := by simp [pad6]
  rw [fracMicro, hlen]
  simp only [Nat.sub_self, List.replicate_zero, List.append_nil]
  rw [List.take_of_length_le (by omega)]
  exact natOfDigits_pad6 m h

theorem goAtoi_digits (l : Str) (hne : l ≠ []) (hd : ∀ c ∈ l, isDigitCh c = true) :
    goAtoi l = (natOfDigits l : Int) := by
  obtain ⟨c, cs, rfl⟩ := List.exists_cons_of_ne_nil hne
  have hc := hd c (by simp)
  rw [goAtoi]
  rw [if_neg (by rintro rfl; simp [isDigitCh] at hc)]
  rw [if_neg (by rintro rfl; simp [isDigitCh] at hc)]
  rw [if_pos (by rw [List.all_eq_true]; intro x hx; exact hd x hx)]

theorem goAtoi_intChars (n : Int) : goAtoi (intChars n) = n := by
  rw [intChars]
  split
  · next h =>
    rw [goAtoi]
    rw [if_neg (show ¬('-' = '+') by decide), if_pos rfl]
    rw [if_pos ⟨natChars_ne_nil _, by rw [List.all_eq_true]; exact natChars_all_digits _⟩]
    rw [natOfDigits_natChars]
    omega
  · next h =>
    rw [goAtoi_digits _ (natChars_ne_nil _) (natChars_all_digits _)]
    rw [natOfDigits_natChars]
    omega

theorem goScanInt_digits_value (s : Int) (l : Str) (body : Str)
    (hsplit : splitSign l = (s, body)) (hne : body ≠ [])
    (hd : ∀ c ∈ body, isDigitCh c = true) (hl : l.dropWhile (· = ' ') = l) :
    goScanInt l = s * (natOfDigits body : Int) := by
  rw [goScanInt, hl, hsplit]
  simp only
  rw [takeWhile_all body hd]
  rw [if_neg hne]

theorem splitSign_digits (l : Str) (hne : l ≠ []) (hd : ∀ c ∈ l, isDigitCh c = true) :
    splitSign l = (1, l) := by
  obtain ⟨c, cs, rfl⟩ := List.exists_cons_of_ne_nil hne
  have hc := hd c (by simp)
  rw [splitSign]
  rw [if_neg (by rintro rfl; simp [isDigitCh] at hc)]
  rw [if_neg (by rintro rfl; simp [isDigitCh] at hc)]

theorem splitSign_minus (l : Str) : splitSign ('-' :: l) = (-1, l) := rfl

theorem dropWhile_space_digits (l : Str) (hne : l ≠ []) (hd : ∀ c ∈ l, isDigitCh c = true) :
    l.dropWhile (· = ' ') = l := by
  obtain ⟨c, cs, rfl⟩ := List.exists_cons_of_ne_nil hne
  have hc := hd c (by simp)
  apply dropWhile_cons_not
  simp only [decide_eq_false_iff_not]
  rintro rfl
  simp [isDigitCh] at hc

theorem goScanInt_intChars (n : Int) : goScanInt (intChars n) = n := by
  rw [intChars]
  split
  · next h =>
    rw [goScanInt]
    rw [dropWhile_cons_not _ _ (by decide)]
    rw [splitSign_minus]
    simp only
    rw [takeWhile_all _ (natChars_all_digits _), if_neg (natChars_ne_nil _)]
    rw [natOfDigits_natChars]
    omega
  · next h =>
    rw [goScanInt_digits_value 1 _ (natChars n.toNat)
          (splitSign_digits _ (natChars_ne_nil _) (natChars_all_digits _))
          (natChars_ne_nil _) (natChars_all_digits _)
          (dropWhile_space_digits _ (natChars_ne_nil _) (natChars_all_digits _))]
    rw [natOfDigits_natChars]
    omega

theorem pad6_all_digits (m : Nat) (h : m < 1000000) : ∀ c ∈ pad6 m, isDigitCh c = true := by
  intro c hc
  simp only [pad6, List.mem_cons, List.not_mem_nil, or_false] at hc
  rcases hc with rfl | rfl | rfl | rfl | rfl | rfl <;>
    exact isDigitCh_digitChar _ (by omega)

theorem not_mem_of_all_digits (l : Str) (h : ∀ c ∈ l, isDigitCh c = true)
    (c : Char) (hc : isDigitCh c = false) : c ∉ l := by
  intro hm
  rw [h c hm] at hc
  cases hc

theorem splitSign_head_digit (c : Char) (cs : Str) (hc : isDigitCh c = true) :
    splitSign (c :: cs) = (1, c :: cs) := by
  rw [splitSign]
  rw [if_neg (by rintro rfl; simp [isDigitCh] at hc)]
  rw [if_neg (by rintro rfl; simp [isDigitCh] at hc)]

theorem dropWhile_space_head_digit (c : Char) (cs : Str) (hc : isDigitCh c = true) :
    ((c :: cs).dropWhile (· = ' ')) = c :: cs := by
  apply dropWhile_cons_not
  simp only [decide_eq_false_iff_not]
  rintro rfl
  simp [isDigitCh] at hc

theorem goParseFloat_body (q r : Nat) (hr : r < 1000000) (s : Int) (cell : Str)
    (hsplit : splitSign cell = (s, natChars q ++ '.' :: pad6 r)) :
    goParseFloatMicro cell = s * ((q : Int) * 1000000 + (r : Int)) := by
  rw [goParseFloatMicro, hsplit]
  simp only
  rw [splitOnChar_sep_append '.' _ _
        (not_mem_of_all_digits _ (natChars_all_digits q) '.' (by decide))]
  rw [splitOnChar_no_sep '.' _
        (not_mem_of_all_digits _ (pad6_all_digits r hr) '.' (by decide))]
  dsimp only
  rw [if_pos ⟨Or.inl (natChars_ne_nil q),
        by rw [List.all_eq_true]; exact natChars_all_digits q,
        by rw [List.all_eq_true]; exact pad6_all_digits r hr⟩]
  rw [natOfDigits_natChars, fracMicro_pad6 r hr]

theorem goScanFloat_body (q r : Nat) (hr : r < 1000000) (s : Int) (cell : Str)
    (hdrop : cell.dropWhile (· = ' ') = cell)
    (hsplit : splitSign cell = (s, natChars q ++ '.' :: pad6 r)) :
    goScanFloatMicro cell = s * ((q : Int) * 1000000 + (r : Int)) := by
  obtain ⟨htake, hdropw⟩ := takeWhile_append_stop (natChars q) '.' (pad6 r)
    (natChars_all_digits q) (by decide)
  rw [goScanFloatMicro, hdrop, hsplit]
  simp only [List.headD_cons, List.tail_cons]
  rw [htake, hdropw]
  simp only [List.headD_cons, List.tail_cons]
  rw [if_pos trivial]
  rw [takeWhile_all _ (pad6_all_digits r hr)]
  rw [if_neg (fun hh => natChars_ne_nil q hh.1)]
  rw [natOfDigits_natChars, fracMicro_pad6 r hr]

theorem microChars_neg (u : Int) (h : u < 0) :
    microChars u = '-' :: (natChars (u.natAbs / 1000000) ++ '.' :: pad6 (u.natAbs % 1000000)) := by
  rw [microChars, if_pos h]
  rfl

theorem microChars_nonneg (u : Int) (h : ¬u < 0) :
    microChars u = natChars (u.natAbs / 1000000) ++ '.' :: pad6 (u.natAbs % 1000000) := by
  rw [microChars, if_neg h]
  rfl

theorem goParseFloatMicro_microChars (u : Int) : goParseFloatMicro (microChars u) = u := by
  have hr : u.natAbs % 1000000 < 1000000 := Nat.mod_lt _ (by omega)
  have hdm := Nat.div_add_mod u.natAbs 1000000
  by_cases hu : u < 0
  · rw [microChars_neg u hu]
    rw [goParseFloat_body _ _ hr (-1) _ (splitSign_minus _)]
    omega
  · rw [microChars_nonneg u hu]
    obtain ⟨c, cs, hcons⟩ := List.exists_cons_of_ne_nil (natChars_ne_nil (u.natAbs / 1000000))
    have hcd : isDigitCh c = true :=
      natChars_all_digits _ c (by rw [hcons]; exact List.mem_cons_self c cs)
    have hshape : natChars (u.natAbs / 1000000) ++ '.' :: pad6 (u.natAbs % 1000000) =
        c :: (cs ++ '.' :: pad6 (u.natAbs % 1000000)) := by
      rw [hcons, List.cons_append]
    have hsplit : splitSign (natChars (u.natAbs / 1000000) ++ '.' :: pad6 (u.natAbs % 1000000)) =
        (1, natChars (u.natAbs / 1000000) ++ '.' :: pad6 (u.natAbs % 1000000)) := by
      rw [hshape]
      exact splitSign_head_digit c _ hcd
    rw [goParseFloat_body _ _ hr 1 _ hsplit]
    have habs : (u.natAbs : Int) = u := Int.natAbs_of_nonneg (by omega)
    omega

theorem goScanFloatMicro_microChars (u : Int) : goScanFloatMicro (microChars u) = u := by
  have hr : u.natAbs % 1000000 < 1000000 := Nat.mod_lt _ (by omega)
  have hdm := Nat.div_add_mod u.natAbs 1000000
  by_cases hu : u < 0
  · rw [microChars_neg u hu]
    rw [goScanFloat_body _ _ hr (-1) _ (dropWhile_cons_not _ _ (by decide)) (splitSign_minus _)]
    omega
  · rw [microChars_nonneg u hu]
    obtain ⟨c, cs, hcons⟩ := List.exists_cons_of_ne_nil (natChars_ne_nil (u.natAbs / 1000000))
    have hcd : isDigitCh c = true :=
      natChars_all_digits _ c (by rw [hcons]; exact List.mem_cons_self c cs)
    have hshape : natChars (u.natAbs / 1000000) ++ '.' :: pad6 (u.natAbs % 1000000) =
        c :: (cs ++ '.' :: pad6 (u.natAbs % 1000000)) := by
      rw [hcons, List.cons_append]
    have hdrop2 : (natChars (u.natAbs / 1000000) ++
        '.' :: pad6 (u.natAbs % 1000000)).dropWhile (· = ' ') =
        natChars (u.natAbs / 1000000) ++ '.' :: pad6 (u.natAbs % 1000000) := by
      rw [hshape]
      exact dropWhile_space_head_digit c _ hcd
    have hsplit : splitSign (natChars (u.natAbs / 1000000) ++ '.' :: pad6 (u.natAbs % 1000000)) =
        (1, natChars (u.natAbs / 1000000) ++ '.' :: pad6 (u.natAbs % 1000000)) := by
      rw [hshape]
      exact splitSign_head_digit c _ hcd
    rw [goScanFloat_body _ _ hr 1 _ hdrop2 hsplit]
    have habs : (u.natAbs : Int) = u := Int.natAbs_of_nonneg (by omega)
    omega

/-- One Santander Cycles docking station as the storage layer carries it: the
fields of tfl.Station that the TSV codec writes and reads
(internal/tfl/models.go). Coordinates are integer micro-degrees (see
microChars). -/
structure Station where
  id : Int
  name : Str
  lat : Int
  long : Int
  nbBikes : Int
  nbStandardBikes : Int
  nbEBikes : Int
  nbEmptyDocks : Int
  nbDocks : Int
deriving DecidableEq, Repr

/-- The TSV header line (storage.TSVHeader). -/
def TSVHeader : Str :=
  ("timestamp\tid\tname\tlat\tlong\tnb_bikes\tnb_standard_bikes\tnb_ebikes\tnb_empty_docks\tnb_docks").data

/-- Tab escaping applied to the station name on encode:
strings.ReplaceAll(name, tab, space). -/
def escapeName (name : Str) : Str := name.map (fun c => if c = '\t' then ' ' else c)

/-- One data row as WriteStations prints it (identical in both backends): ten
tab-separated fields, every row carrying the shared RFC 3339 timestamp. -/
def stationRow (ts : DateTime) (st : Station) : Str :=
  joinSep '\t'
    [formatRFC3339 ts, intChars st.id, escapeName st.name, microChars st.lat,
     microChars st.long, intChars st.nbBikes, intChars st.nbStandardBikes,
     intChars st.nbEBikes, intChars st.nbEmptyDocks, intChars st.nbDocks]

/-- The full TSV body WriteStations builds: the header line, then one line per
station, each line newline-terminated. The sub-second part of the capture
instant appears nowhere in the output. -/
def encodeSnapshot (now : Instant) (stations : List Station) : Str :=
  ((TSVHeader :: stations.map (stationRow now.dt)).map (· ++ ['\n'])).flatten

/-- One decoded row of the filesystem path (TSVStorage.readTSVFile): numeric
cells read with strconv.Atoi / strconv.ParseFloat, errors discarded. -/
def decodeRowTSV (fs : List Str) : Station :=
  { id := goAtoi (fs.getD 1 [])
    name := fs.getD 2 []
    lat := goParseFloatMicro (fs.getD 3 [])
    long := goParseFloatMicro (fs.getD 4 [])
    nbBikes := goAtoi (fs.getD 5 [])
    nbStandardBikes := goAtoi (fs.getD 6 [])
    nbEBikes := goAtoi (fs.getD 7 [])
    nbEmptyDocks := goAtoi (fs.getD 8 [])
    nbDocks := goAtoi (fs.getD 9 []) }

/-- One decoded row of the object-store path (R2Storage.GetSnapshot): numeric
cells read with fmt.Sscanf %d / %f, results discarded. -/
def decodeRowR2 (fs : List Str) : Station :=
  { id := goScanInt (fs.getD 1 [])
    name := fs.getD 2 []
    lat := goScanFloatMicro (fs.getD 3 [])
    long := goScanFloatMicro (fs.getD 4 [])
    nbBikes := goScanInt (fs.getD 5 [])
    nbStandardBikes := goScanInt (fs.getD 6 [])
    nbEBikes := goScanInt (fs.getD 7 [])
    nbEmptyDocks := goScanInt (fs.getD 8 [])
    nbDocks := goScanInt (fs.getD 9 []) }

/-- Stations produced by the shared decode loop: any row with fewer than ten
tab-separated fields is skipped, every other row yields one station. -/
def stationsOf (row : List Str → Station) : List Str → List Station
  | [] => []
  | r :: rest =>
    if 10 ≤ (splitOnChar '\t' r).length then
      row (splitOnChar '\t' r) :: stationsOf row rest
    else stationsOf row rest

/-- Captured-at timestamp of the shared decode loop: the RFC 3339 parse of the
first field of the first row that has at least ten columns; the zero time when
that parse fails or no such row exists (the parse error is discarded in the
source). -/
def capturedAtOf : List Str → DateTime
  | [] => zeroTime
  | r :: rest =>
    if 10 ≤ (splitOnChar '\t' r).length then
      (parseRFC3339 ((splitOnChar '\t' r).getD 0 [])).getD zeroTime
    else capturedAtOf rest

/-- R2Storage.GetSnapshot applied to an already-fetched body: fails only when
the body yields no line at all to consume as header (the "empty file" error);
otherwise succeeds with the stations of all ten-column rows and the
captured-at timestamp. -/
def decodeSnapshotR2 (body : Str) : Option (List Station × DateTime) :=
  match goLines body with
  | [] => none
  | _ :: rows => some (stationsOf decodeRowR2 rows, capturedAtOf rows)

/-- TSVStorage.readTSVFile applied to a file's contents: same structure as the
R2 path, with the strconv-based cell parsers. -/
def decodeSnapshotTSV (body : Str) : Option (List Station × DateTime) :=
  match goLines body with
  | [] => none
  | _ :: rows => some (stationsOf decodeRowTSV rows, capturedAtOf rows)

theorem digitChar_ne_of_not_digit (d : Nat) (h : d < 10) (c : Char)
    (hc : isDigitCh c = false) : digitChar d ≠ c := by
  intro he
  rw [← he] at hc
  rw [isDigitCh_digitChar d h] at hc
  cases hc

theorem notMem_natChars (n : Nat) (c : Char) (hc : isDigitCh c = false) : c ∉ natChars n :=
  not_mem_of_all_digits _ (natChars_all_digits n) c hc

theorem notMem_intChars (n : Int) (c : Char) (hc : isDigitCh c = false) (h2 : c ≠ '-') :
    c ∉ intChars n := by
  rw [intChars]
  split
  · intro hm
    rcases List.mem_cons.mp hm with hm | hm
    · exact h2 hm
    · exact notMem_natChars _ c hc hm
  · exact notMem_natChars _ c hc

theorem notMem_microChars (u : Int) (c : Char) (hc : isDigitCh c = false)
    (h2 : c ≠ '-') (h3 : c ≠ '.') : c ∉ microChars u := by
  rw [microChars]
  intro hm
  rw [List.mem_append] at hm
  rcases hm with hm | hm
  · rw [List.mem_append] at hm
    rcases hm with hm | hm
    · revert hm
      split
      · intro hm
        exact h2 (List.mem_singleton.mp hm)
      · intro hm
        cases hm
    · exact notMem_natChars _ c hc hm
  · rcases List.mem_cons.mp hm with hm | hm
    · exact h3 hm
    · have hr : u.natAbs % 1000000 < 1000000 := Nat.mod_lt _ (by omega)
      exact not_mem_of_all_digits _ (pad6_all_digits _ hr) c hc hm

theorem notMem_formatRFC3339 (dt : DateTime) (h : validDateTime dt = true) (c : Char)
    (hc : isDigitCh c = false) (h2 : c ≠ '-') (h3 : c ≠ 'T') (h4 : c ≠ ':') (h5 : c ≠ 'Z') :
    c ∉ formatRFC3339 dt := by
  obtain ⟨hy, hmo1, hmo2, hd1, hd2, hh, hmi, hs⟩ := validDateTime_bounds dt h
  have hd31 := le_trans hd2 (daysInMonth_le_31 dt.year dt.month)
  intro hm
  simp only [formatRFC3339, pad4, pad2, List.cons_append, List.nil_append, List.mem_cons,
    List.not_mem_nil, or_false] at hm
  rcases hm with hm|hm|hm|hm|hm|hm|hm|hm|hm|hm|hm|hm|hm|hm|hm|hm|hm|hm|hm|hm <;>
    first
      | exact h2 hm
      | exact h3 hm
      | exact h4 hm
      | exact h5 hm
      | exact digitChar_ne_of_not_digit _ (by omega) c hc hm.symm

theorem notMem_formatCompact (dt : DateTime) (h : validDateTime dt = true) (c : Char)
    (hc : isDigitCh c = false) (h2 : c ≠ '_') : c ∉ formatCompact dt := by
  obtain ⟨hy, hmo1, hmo2, hd1, hd2, hh, hmi, hs⟩ := validDateTime_bounds dt h
  have hd31 := le_trans hd2 (daysInMonth_le_31 dt.year dt.month)
  intro hm
  simp only [formatCompact, pad4, pad2, List.cons_append, List.nil_append, List.mem_cons,
    List.not_mem_nil, or_false] at hm
  rcases hm with hm|hm|hm|hm|hm|hm|hm|hm|hm|hm|hm|hm|hm|hm|hm <;>
    first
      | exact h2 hm
      | exact digitChar_ne_of_not_digit _ (by omega) c hc hm.symm

theorem tab_notMem_escapeName (name : Str) : ('\t' : Char) ∉ escapeName name := by
  intro hm
  rw [escapeName, List.mem_map] at hm
  obtain ⟨c, -, hc⟩ := hm
  by_cases h : c = '\t'
  · rw [if_pos h] at hc
    exact absurd hc (by decide)
  · rw [if_neg h] at hc
    exact h hc

theorem notMem_escapeName (name : Str) (c : Char) (hcn : c ∉ name) (hcs : c ≠ ' ') :
    c ∉ escapeName name := by
  intro hm
  rw [escapeName, List.mem_map] at hm
  obtain ⟨d, hd, hdc⟩ := hm
  by_cases h : d = '\t'
  · rw [if_pos h] at hdc
    exact hcs hdc.symm
  · rw [if_neg h] at hdc
    rw [hdc] at hd
    exact hcn hd

theorem mem_joinSep (sep : Char) (parts : List Str) (c : Char) (hm : c ∈ joinSep sep parts) :
    c = sep ∨ ∃ p ∈ parts, c ∈ p := by
  induction parts with
  | nil => cases hm
  | cons x xs ih =>
    cases xs with
    | nil =>
      exact Or.inr ⟨x, by simp, hm⟩
    | cons y ys =>
      rw [joinSep, List.mem_append] at hm
      rcases hm with hm | hm
      · exact Or.inr ⟨x, by simp, hm⟩
      · rcases List.mem_cons.mp hm with hm | hm
        · exact Or.inl hm
        · rcases ih hm with hm | ⟨p, hp, hcp⟩
          · exact Or.inl hm
          · exact Or.inr ⟨p, List.mem_cons_of_mem x hp, hcp⟩

theorem joinSep_two_ne_nil (sep : Char) (a b : Str) (t : List Str) :
    joinSep sep (a :: b :: t) ≠ [] := by
  rw [joinSep]
  simp

theorem getLast?_joinSep (sep : Char) (parts : List Str) (x : Str) (hx : x ≠ []) :
    (joinSep sep (parts ++ [x])).getLast? = x.getLast? := by
  induction parts with
  | nil => simp [joinSep]
  | cons p ps ih =>
    cases ps with
    | nil =>
      have h1 : joinSep sep (([p] : List Str) ++ [x]) = p ++ sep :: x := rfl
      rw [h1, List.getLast?_append_cons]
      obtain ⟨a, as, rfl⟩ := List.exists_cons_of_ne_nil hx
      rw [List.getLast?_cons_cons]
    | cons q qs =>
      have h1 : joinSep sep ((p :: q :: qs) ++ [x]) =
          p ++ sep :: joinSep sep ((q :: qs) ++ [x]) := rfl
      rw [h1, List.getLast?_append_cons]
      obtain ⟨w, ws, hw⟩ :=
        List.exists_cons_of_ne_nil (show joinSep sep ((q :: qs) ++ [x]) ≠ [] by
          obtain ⟨v, vs, hv⟩ := List.exists_cons_of_ne_nil
            (show qs ++ [x] ≠ [] by simp)
          rw [List.cons_append, hv]
          exact joinSep_two_ne_nil sep q v vs)
      rw [hw, List.getLast?_cons_cons, ← hw]
      exact ih

theorem natChars_getLast_digit (n : Nat) :
    ∃ d, d < 10 ∧ (natChars n).getLast? = some (digitChar d) := by
  rw [natChars_eq]
  split
  · next h => exact ⟨n, h, rfl⟩
  · next h =>
    refine ⟨n % 10, Nat.mod_lt n (by omega), ?_⟩
    rw [List.getLast?_concat]

theorem intChars_getLast_digit (n : Int) :
    ∃ d, d < 10 ∧ (intChars n).getLast? = some (digitChar d) := by
  rw [intChars]
  split
  · obtain ⟨d, hd, hl⟩ := natChars_getLast_digit n.natAbs
    obtain ⟨a, as, ha⟩ := List.exists_cons_of_ne_nil (natChars_ne_nil n.natAbs)
    refine ⟨d, hd, ?_⟩
    rw [ha, List.getLast?_cons_cons, ← ha]
    exact hl
  · exact natChars_getLast_digit n.toNat

theorem intChars_ne_nil (n : Int) : intChars n ≠ [] := by
  rw [intChars]
  split
  · simp
  · exact natChars_ne_nil _

theorem stationRow_getLast_ne_cr (ts : DateTime) (st : Station) :
    (stationRow ts st).getLast? ≠ some '\r' := by
  obtain ⟨d, hd, hl⟩ := intChars_getLast_digit st.nbDocks
  have h1 : (stationRow ts st).getLast? = (intChars st.nbDocks).getLast? := by
    rw [stationRow]
    exact getLast?_joinSep '\t'
      [formatRFC3339 ts, intChars st.id, escapeName st.name, microChars st.lat,
       microChars st.long, intChars st.nbBikes, intChars st.nbStandardBikes,
       intChars st.nbEBikes, intChars st.nbEmptyDocks] _ (intChars_ne_nil _)
  rw [h1, hl]
  intro he
  exact digitChar_ne_of_not_digit d hd '\r' (by decide) (Option.some.inj he)

theorem newline_notMem_stationRow (ts : DateTime) (hts : validDateTime ts = true)
    (st : Station) (hname : ('\n' : Char) ∉ st.name) : ('\n' : Char) ∉ stationRow ts st := by
  intro hm
  rcases mem_joinSep _ _ _ hm with h | ⟨p, hp, hcp⟩
  · exact absurd h (by decide)
  · simp only [List.mem_cons, List.not_mem_nil, or_false] at hp
    rcases hp with rfl|rfl|rfl|rfl|rfl|rfl|rfl|rfl|rfl|rfl
    · exact notMem_formatRFC3339 ts hts '\n' (by decide) (by decide) (by decide) (by decide)
        (by decide) hcp
    · exact notMem_intChars _ _ (by decide) (by decide) hcp
    · exact notMem_escapeName st.name '\n' hname (by decide) hcp
    · exact notMem_microChars _ _ (by decide) (by decide) (by decide) hcp
    · exact notMem_microChars _ _ (by decide) (by decide) (by decide) hcp
    · exact notMem_intChars _ _ (by decide) (by decide) hcp
    · exact notMem_intChars _ _ (by decide) (by decide) hcp
    · exact notMem_intChars _ _ (by decide) (by decide) hcp
    · exact notMem_intChars _ _ (by decide) (by decide) hcp
    · exact notMem_intChars _ _ (by decide) (by decide) hcp

theorem splitTabs_stationRow (ts : DateTime) (hts : validDateTime ts = true) (st : Station) :
    splitOnChar '\t' (stationRow ts st) =
      [formatRFC3339 ts, intChars st.id, escapeName st.name, microChars st.lat,
       microChars st.long, intChars st.nbBikes, intChars st.nbStandardBikes,
       intChars st.nbEBikes, intChars st.nbEmptyDocks, intChars st.nbDocks] := by
  apply splitOnChar_joinSep
  · intro p hp
    simp only [List.mem_cons, List.not_mem_nil, or_false] at hp
    rcases hp with rfl|rfl|rfl|rfl|rfl|rfl|rfl|rfl|rfl|rfl
    · exact notMem_formatRFC3339 ts hts '\t' (by decide) (by decide) (by decide) (by decide)
        (by decide)
    · exact notMem_intChars _ _ (by decide) (by decide)
    · exact tab_notMem_escapeName _
    · exact notMem_microChars _ _ (by decide) (by decide) (by decide)
    · exact notMem_microChars _ _ (by decide) (by decide) (by decide)
    · exact notMem_intChars _ _ (by decide) (by decide)
    · exact notMem_intChars _ _ (by decide) (by decide)
    · exact notMem_intChars _ _ (by decide) (by decide)
    · exact notMem_intChars _ _ (by decide) (by decide)
    · exact notMem_intChars _ _ (by decide) (by decide)
  · simp

theorem escapeName_eq_self (name : Str) (h : ('\t' : Char) ∉ name) :
    escapeName name = name := by
  rw [escapeName]
  have hcong : ∀ c ∈ name, (if c = '\t' then ' ' else c) = c := by
    intro c hc
    rw [if_neg (fun e => h (by rw [← e]; exact hc))]
  rw [List.map_congr_left hcong]
  exact List.map_id name

theorem decodeRowTSV_stationRow (ts : DateTime) (hts : validDateTime ts = true)
    (st : Station) (hname : ('\t' : Char) ∉ st.name) :
    decodeRowTSV (splitOnChar '\t' (stationRow ts st)) = st := by
  rw [splitTabs_stationRow ts hts st]
  obtain ⟨i, nm, la, lo, b1, b2, b3, b4, b5⟩ := st
  simp only [decodeRowTSV, List.getD_cons_succ, List.getD_cons_zero]
  rw [goAtoi_intChars, goAtoi_intChars, goAtoi_intChars, goAtoi_intChars, goAtoi_intChars,
      goAtoi_intChars, goParseFloatMicro_microChars, goParseFloatMicro_microChars]
  rw [escapeName_eq_self nm hname]

theorem decodeRowR2_stationRow (ts : DateTime) (hts : validDateTime ts = true)
    (st : Station) (hname : ('\t' : Char) ∉ st.name) :
    decodeRowR2 (splitOnChar '\t' (stationRow ts st)) = st := by
  rw [splitTabs_stationRow ts hts st]
  obtain ⟨i, nm, la, lo, b1, b2, b3, b4, b5⟩ := st
  simp only [decodeRowR2, List.getD_cons_succ, List.getD_cons_zero]
  rw [goScanInt_intChars, goScanInt_intChars, goScanInt_intChars, goScanInt_intChars,
      goScanInt_intChars, goScanInt_intChars, goScanFloatMicro_microChars,
      goScanFloatMicro_microChars]
  rw [escapeName_eq_self nm hname]

theorem stationRow_cols (ts : DateTime) (hts : validDateTime ts = true) (st : Station) :
    10 ≤ (splitOnChar '\t' (stationRow ts st)).length := by
  rw [splitTabs_stationRow ts hts st]
  simp

theorem stationsOf_map_rows (row : List Str → Station) (ts : DateTime)
    (hts : validDateTime ts = true) (stations : List Station)
    (hdec : ∀ st ∈ stations, row (splitOnChar '\t' (stationRow ts st)) = st) :
    stationsOf row (stations.map (stationRow ts)) = stations := by
  induction stations with
  | nil => rfl
  | cons st rest ih =>
    rw [List.map_cons, stationsOf]
    rw [if_pos (stationRow_cols ts hts st)]
    rw [hdec st (by simp)]
    rw [ih (fun s hs => hdec s (List.mem_cons_of_mem st hs))]

theorem capturedAtOf_map_rows (ts : DateTime) (hts : validDateTime ts = true)
    (st : Station) (rest : List Station) :
    capturedAtOf ((st :: rest).map (stationRow ts)) = ts := by
  rw [List.map_cons, capturedAtOf]
  rw [if_pos (stationRow_cols ts hts st)]
  rw [splitTabs_stationRow ts hts st]
  simp only [List.getD_cons_zero]
  rw [parseRFC3339_formatRFC3339 ts hts]
  rfl

theorem goLines_encodeSnapshot (now : Instant) (stations : List Station)
    (hts : validDateTime now.dt = true)
    (hname : ∀ st ∈ stations, ('\n' : Char) ∉ st.name) :
    goLines (encodeSnapshot now stations) =
      TSVHeader :: stations.map (stationRow now.dt) := by
  rw [encodeSnapshot]
  apply goLines_of_lines
  · intro l hl
    rcases List.mem_cons.mp hl with rfl | hl
    · decide
    · obtain ⟨st, hst, rfl⟩ := List.mem_map.mp hl
      exact newline_notMem_stationRow now.dt hts st (hname st hst)
  · intro l hl
    rcases List.mem_cons.mp hl with rfl | hl
    · decide
    · obtain ⟨st, hst, rfl⟩ := List.mem_map.mp hl
      exact stationRow_getLast_ne_cr now.dt st

theorem decodeSnapshotR2_encodeSnapshot (now : Instant) (stations : List Station)
    (hts : validDateTime now.dt = true)
    (hname : ∀ st ∈ stations, ('\t' : Char) ∉ st.name ∧ ('\n' : Char) ∉ st.name)
    (hne : stations ≠ []) :
    decodeSnapshotR2 (encodeSnapshot now stations) = some (stations, now.dt) := by
  rw [decodeSnapshotR2, goLines_encodeSnapshot now stations hts (fun st hs => (hname st hs).2)]
  dsimp only
  obtain ⟨st, rest, rfl⟩ := List.exists_cons_of_ne_nil hne
  rw [stationsOf_map_rows decodeRowR2 now.dt hts _
        (fun s hs => decodeRowR2_stationRow now.dt hts s (hname s hs).1)]
  rw [capturedAtOf_map_rows now.dt hts st rest]

theorem decodeSnapshotTSV_encodeSnapshot (now : Instant) (stations : List Station)
    (hts : validDateTime now.dt = true)
    (hname : ∀ st ∈ stations, ('\t' : Char) ∉ st.name ∧ ('\n' : Char) ∉ st.name)
    (hne : stations ≠ []) :
    decodeSnapshotTSV (encodeSnapshot now stations) = some (stations, now.dt) := by
  rw [decodeSnapshotTSV, goLines_encodeSnapshot now stations hts (fun st hs => (hname st hs).2)]
  dsimp only
  obtain ⟨st, rest, rfl⟩ := List.exists_cons_of_ne_nil hne
  rw [stationsOf_map_rows decodeRowTSV now.dt hts _
        (fun s hs => decodeRowTSV_stationRow now.dt hts s (hname s hs).1)]
  rw [capturedAtOf_map_rows now.dt hts st rest]

theorem goLines_encode_nil (now : Instant) :
    goLines (encodeSnapshot now []) = [TSVHeader] := by
  rw [encodeSnapshot]
  simp only [List.map_nil]
  exact goLines_of_lines [TSVHeader]
    (by intro l hl; rw [List.mem_singleton] at hl; subst hl; decide)
    (by intro l hl; rw [List.mem_singleton] at hl; subst hl; decide)

theorem decodeSnapshotR2_encode_nil (now : Instant) :
    decodeSnapshotR2 (encodeSnapshot now []) = some ([], zeroTime) := by
  rw [decodeSnapshotR2, goLines_encode_nil now]
  rfl

theorem decodeSnapshotTSV_encode_nil (now : Instant) :
    decodeSnapshotTSV (encodeSnapshot now []) = some ([], zeroTime) := by
  rw [decodeSnapshotTSV, goLines_encode_nil now]
  rfl

/-- Go bytewise string comparison (s1 < s2), restricted to the ASCII keys the
storage layer compares; characters compare by codepoint. -/
def lexLt : Str → Str → Bool
  | [], [] => false
  | [], _ :: _ => true
  | _ :: _, [] => false
  | a :: as, b :: bs =>
    if a.toNat < b.toNat then true
    else if b.toNat < a.toNat then false
    else lexLt as bs

/-- Go bytewise string comparison (s1 ≤ s2). -/
def lexLe (a b : Str) : Bool := !(lexLt b a)

theorem char_toNat_inj (a b : Char) (h : a.toNat = b.toNat) : a = b :=
  Char.ext (UInt32.ext h)

theorem lexLt_irrefl (a : Str) : lexLt a a = false := by
  induction a with
  | nil => rfl
  | cons c cs ih =>
    rw [lexLt]
    rw [if_neg (by omega), if_neg (by omega)]
    exact ih

theorem lexLt_trans (a b c : Str) (h1 : lexLt a b = true) (h2 : lexLt b c = true) :
    lexLt a c = true := by
  induction a generalizing b c with
  | nil =>
    cases c with
    | nil =>
      cases b with
      | nil => cases h1
      | cons y ys => cases h2
    | cons z zs => rfl
  | cons x xs ih =>
    cases b with
    | nil => cases h1
    | cons y ys =>
      cases c with
      | nil => cases h2
      | cons z zs =>
        rw [lexLt] at h1 h2 ⊢
        by_cases hxy : x.toNat < y.toNat
        · by_cases hyz : y.toNat < z.toNat
          · rw [if_pos (by omega)]
          · rw [if_neg hyz] at h2
            by_cases hzy : z.toNat < y.toNat
            · rw [if_pos hzy] at h2
              cases h2
            · rw [if_pos (by omega)]
        · rw [if_neg hxy] at h1
          by_cases hyx : y.toNat < x.toNat
          · rw [if_pos hyx] at h1
            cases h1
          · rw [if_neg hyx] at h1
            by_cases hyz : y.toNat < z.toNat
            · rw [if_pos (by omega)]
            · rw [if_neg hyz] at h2
              by_cases hzy : z.toNat < y.toNat
              · rw [if_pos hzy] at h2
                cases h2
              · rw [if_neg hzy] at h2
                rw [if_neg (by omega), if_neg (by omega)]
                exact ih ys zs h1 h2

theorem lexLt_connex (a b : Str) (h1 : lexLt a b = false) (h2 : lexLt b a = false) :
    a = b := by
  induction a generalizing b with
  | nil =>
    cases b with
    | nil => rfl
    | cons y ys => cases h1
  | cons x xs ih =>
    cases b with
    | nil => cases h2
    | cons y ys =>
      rw [lexLt] at h1 h2
      by_cases hxy : x.toNat < y.toNat
      · rw [if_pos hxy] at h1
        cases h1
      · by_cases hyx : y.toNat < x.toNat
        · rw [if_pos hyx] at h2
          cases h2
        · rw [if_neg hxy, if_neg hyx] at h1
          rw [if_neg hyx, if_neg hxy] at h2
          rw [char_toNat_inj x y (by omega), ih ys h1 h2]

theorem lexLe_total (a b : Str) : lexLe a b = true ∨ lexLe b a = true := by
  rw [lexLe, lexLe, Bool.not_eq_true', Bool.not_eq_true']
  by_cases h1 : lexLt b a = true
  · by_cases h2 : lexLt a b = true
    · have h3 := lexLt_trans a b a h2 h1
      rw [lexLt_irrefl a] at h3
      cases h3
    · exact Or.inr (Bool.eq_false_iff.mpr h2)
  · exact Or.inl (Bool.eq_false_iff.mpr h1)

theorem lexLe_trans_thm (a b c : Str) (h1 : lexLe a b = true) (h2 : lexLe b c = true) :
    lexLe a c = true := by
  rw [lexLe, Bool.not_eq_true'] at h1 h2 ⊢
  by_cases hca : lexLt c a = true
  · by_cases hbc : lexLt b c = true
    · have h3 := lexLt_trans b c a hbc hca
      rw [h1] at h3
      cases h3
    · have heq := lexLt_connex b c (Bool.eq_false_iff.mpr hbc) h2
      rw [← heq, h1] at hca
      cases hca
  · exact Bool.eq_false_iff.mpr hca

/-- Chronological order on second-precision UTC date-times: lexicographic on
(year, month, day, hour, minute, second). -/
def dtLt (a b : DateTime) : Prop :=
  a.year < b.year ∨ (a.year = b.year ∧ (a.month < b.month ∨ (a.month = b.month ∧
    (a.day < b.day ∨ (a.day = b.day ∧ (a.hour < b.hour ∨ (a.hour = b.hour ∧
    (a.minute < b.minute ∨ (a.minute = b.minute ∧ a.second < b.second)))))))))

instance (a b : DateTime) : Decidable (dtLt a b) := by
  unfold dtLt
  infer_instance

theorem lexLt_append_left (p : Str) (a b : Str) :
    lexLt (p ++ a) (p ++ b) = lexLt a b := by
  induction p with
  | nil => rfl
  | cons c cs ih =>
    rw [List.cons_append, List.cons_append, lexLt]
    rw [if_neg (by omega), if_neg (by omega)]
    exact ih

theorem lexLt_append_of_length_eq (a : Str) : ∀ (b : Str) (u v : Str),
    a.length = b.length →
    (lexLt (a ++ u) (b ++ v) = true ↔
      (lexLt a b = true ∨ (a = b ∧ lexLt u v = true))) := by
  induction a with
  | nil =>
    intro b u v hlen
    have hb : b = [] := by
      cases b
      · rfl
      · cases hlen
    subst hb
    constructor
    · intro h
      exact Or.inr ⟨rfl, h⟩
    · rintro (h | ⟨-, h⟩)
      · exact absurd h (by decide)
      · exact h
  | cons x xs ih =>
    intro b u v hlen
    cases b with
    | nil => cases hlen
    | cons y ys =>
      rw [List.cons_append, List.cons_append, lexLt, lexLt]
      by_cases hxy : x.toNat < y.toNat
      · rw [if_pos hxy, if_pos hxy]
        constructor
        · intro _
          exact Or.inl rfl
        · intro _
          rfl
      · rw [if_neg hxy, if_neg hxy]
        by_cases hyx : y.toNat < x.toNat
        · rw [if_pos hyx, if_pos hyx]
          constructor
          · intro h
            cases h
          · rintro (h | ⟨heq, -⟩)
            · cases h
            · cases heq
              omega
        · rw [if_neg hyx, if_neg hyx]
          have hx : x = y := char_toNat_inj x y (by omega)
          subst hx
          rw [ih ys u v (by simpa using hlen)]
          constructor
          · rintro (h | ⟨rfl, h⟩)
            · exact Or.inl h
            · exact Or.inr ⟨rfl, h⟩
          · rintro (h | ⟨heq, h⟩)
            · exact Or.inl h
            · rw [List.cons.injEq] at heq
              exact Or.inr ⟨heq.2, h⟩

theorem digitChar_inj (a b : Nat) (ha : a < 10) (hb : b < 10)
    (h : digitChar a = digitChar b) : a = b := by
  have h2 := congrArg Char.toNat h
  rw [digitChar_toNat a ha, digitChar_toNat b hb] at h2
  omega

theorem pad2_inj (m n : Nat) (hm : m < 100) (hn : n < 100) (h : pad2 m = pad2 n) :
    m = n := by
  simp only [pad2, List.cons.injEq, and_true] at h
  have h1 := digitChar_inj (m / 10) (n / 10) (by omega) (by omega) h.1
  have h2 := digitChar_inj (m % 10) (n % 10) (by omega) (by omega) h.2
  omega

theorem pad2_lt_iff (m n : Nat) (hm : m < 100) (hn : n < 100) :
    (lexLt (pad2 m) (pad2 n) = true) ↔ m < n := by
  simp only [pad2, lexLt]
  rw [digitChar_toNat _ (by omega), digitChar_toNat _ (by omega),
      digitChar_toNat _ (by omega), digitChar_toNat _ (by omega)]
  split_ifs <;> simp <;> omega

theorem lexLt_pad2_seg (m n : Nat) (hm : m < 100) (hn : n < 100) (u v : Str) :
    (lexLt (pad2 m ++ u) (pad2 n ++ v) = true) ↔
      (m < n ∨ (m = n ∧ lexLt u v = true)) := by
  rw [lexLt_append_of_length_eq _ _ u v (by simp [pad2])]
  rw [pad2_lt_iff m n hm hn]
  constructor
  · rintro (h | ⟨heq, hu⟩)
    · exact Or.inl h
    · exact Or.inr ⟨pad2_inj m n hm hn heq, hu⟩
  · rintro (h | ⟨rfl, hu⟩)
    · exact Or.inl h
    · exact Or.inr ⟨rfl, hu⟩

theorem lexLt_cons_same (c : Char) (u v : Str) :
    lexLt (c :: u) (c :: v) = lexLt u v := by
  rw [lexLt]
  rw [if_neg (by omega), if_neg (by omega)]

theorem pad4_eq (n : Nat) : pad4 n = pad2 (n / 100) ++ pad2 (n % 100) := by
  simp only [pad4, pad2, List.cons_append, List.nil_append]
  rw [show n / 100 / 10 = n / 1000 by omega, show n % 100 / 10 = n / 10 % 10 by omega,
      show n % 100 % 10 = n % 10 by omega]

theorem formatCompact_lt_iff (a b : DateTime) (ha : validDateTime a = true)
    (hb : validDateTime b = true) :
    (lexLt (formatCompact a) (formatCompact b) = true) ↔ dtLt a b := by
  obtain ⟨hy1, hmo11, hmo12, hd11, hd12, hh1, hmi1, hs1⟩ := validDateTime_bounds a ha
  obtain ⟨hy2, hmo21, hmo22, hd21, hd22, hh2, hmi2, hs2⟩ := validDateTime_bounds b hb
  have hd131 := le_trans hd12 (daysInMonth_le_31 a.year a.month)
  have hd231 := le_trans hd22 (daysInMonth_le_31 b.year b.month)
  rw [formatCompact, formatCompact, pad4_eq, pad4_eq]
  simp only [List.append_assoc, List.singleton_append, List.cons_append, List.nil_append]
  rw [lexLt_pad2_seg _ _ (by omega) (by omega)]
  rw [lexLt_pad2_seg _ _ (by omega) (by omega)]
  rw [lexLt_pad2_seg _ _ (by omega) (by omega)]
  rw [lexLt_pad2_seg _ _ (by omega) (by omega)]
  rw [lexLt_cons_same]
  rw [lexLt_pad2_seg _ _ (by omega) (by omega)]
  rw [lexLt_pad2_seg _ _ (by omega) (by omega)]
  rw [pad2_lt_iff _ _ (by omega) (by omega)]
  rw [dtLt]
  omega

theorem formatCompact_length (dt : DateTime) : (formatCompact dt).length = 15 := by
  simp [formatCompact, pad4, pad2]

/-- The fixed stem of every snapshot name. -/
def stationsStem : Str := ("stations_").data

/-- The fixed extension of every snapshot name. -/
def tsvExt : Str := (".tsv").data

namespace R2Storage

/-- R2Storage.WriteStations: the object key and the TSV body uploaded for one
capture (the source takes the instant from time.Now().UTC(); it is an explicit
parameter here). The key is prefix + "stations_" + compact timestamp + ".tsv". -/
def WriteStations (pre : Str) (now : Instant) (stations : List Station) : Str × Str :=
  (pre ++ stationsStem ++ formatCompact now.dt ++ tsvExt, encodeSnapshot now stations)

/-- R2Storage.ListSnapshots: collect the keys of every page of the paginated
substrate listing in arrival order, then reverse the collected slice (the swap
loop in the source is exactly an in-place reversal; no comparison sort is
performed). -/
def ListSnapshots (pages : List (List Str)) : List Str := pages.flatten.reverse

end R2Storage

/-- One entry of the local data directory, with the file's content attached:
the filesystem a TSVStorage reads. A missing directory is modelled as none. -/
structure DirEntry where
  name : Str
  isDir : Bool
  content : Str
deriving DecidableEq, Repr

/-- The descending-by-string-order relation used by the filesystem backend's
sort (sort.Sort of sort.Reverse of sort.StringSlice). -/
def descStr (a b : Str) : Prop := lexLe b a = true

instance : DecidableRel descStr := fun a b => by unfold descStr; infer_instance

instance : IsTotal Str descStr := ⟨fun a b => (lexLe_total b a).elim Or.inl Or.inr⟩

instance : IsTrans Str descStr := ⟨fun a b c hab hbc => lexLe_trans_thm c b a hbc hab⟩

namespace TSVStorage

/-- TSVStorage.listTSVFiles: read the data directory (a missing directory is
zero files, not an error), keep the non-directory entries whose name starts
with "stations_" and ends in ".tsv", join each with the data directory, and
sort the joined paths in descending string order. -/
def listTSVFiles (dataDir : Str) (dir : Option (List DirEntry)) : List Str :=
  match dir with
  | none => []
  | some entries =>
    ((entries.filter (fun e =>
        !e.isDir && stationsStem.isPrefixOf e.name && tsvExt.isSuffixOf e.name)).map
      (fun e => dataDir ++ '/' :: e.name)).insertionSort descStr

/-- The error kinds ReadLatestStations can surface. -/
inductive StorageError where
  | noData
  | openFailed
  | emptyFile
deriving DecidableEq, Repr

/-- TSVStorage.readTSVFile: open one file of the data directory by its joined
path and decode it; a body without any line fails with the "empty file"
error. -/
def readTSVFile (dataDir : Str) (dir : Option (List DirEntry)) (path : Str) :
    Except StorageError (List Station × DateTime) :=
  match dir with
  | none => .error .openFailed
  | some entries =>
    match entries.find? (fun e => decide (dataDir ++ '/' :: e.name = path)) with
    | none => .error .openFailed
    | some e =>
      match decodeSnapshotTSV e.content with
      | none => .error .emptyFile
      | some r => .ok r

/-- TSVStorage.ReadLatestStations: list the snapshot files (sorted newest
first), fail with the "no station data files found" error when there are none,
otherwise read the first listed file. -/
def ReadLatestStations (dataDir : Str) (dir : Option (List DirEntry)) :
    Except StorageError (List Station × DateTime) :=
  match listTSVFiles dataDir dir with
  | [] => .error .noData
  | f :: _ => readTSVFile dataDir dir f

/-- Go strings.TrimPrefix. -/
def trimPre (pre l : Str) : Str := if pre.isPrefixOf l then l.drop pre.length else l

/-- Go strings.TrimSuffix. -/
def trimSuf (suf l : Str) : Str := if suf.isSuffixOf l then l.take (l.length - suf.length) else l

/-- TSVStorage.parseFilenameTimestamp: strip the data-directory segment, the
".tsv" suffix and the "stations_" stem from a joined path, then parse the
remaining compact timestamp. -/
def parseFilenameTimestamp (dataDir : Str) (path : Str) : Option DateTime :=
  parseCompact (trimPre stationsStem (trimSuf tsvExt (trimPre (dataDir ++ ['/']) path)))

/-- TSVStorage.WriteStations: the joined path of the created file and the TSV
body written to it. -/
def WriteStations (dataDir : Str) (now : Instant) (stations : List Station) : Str × Str :=
  (dataDir ++ '/' :: (stationsStem ++ formatCompact now.dt ++ tsvExt), encodeSnapshot now stations)

end TSVStorage

theorem isPrefixOf_append_self (a b : Str) : a.isPrefixOf (a ++ b) = true := by
  induction a with
  | nil => simp [List.isPrefixOf]
  | cons c cs ih =>
    rw [List.cons_append, List.isPrefixOf]
    simp only [beq_self_eq_true, Bool.true_and]
    exact ih

theorem isSuffixOf_append_self (a b : Str) : b.isSuffixOf (a ++ b) = true := by
  rw [List.isSuffixOf, List.reverse_append]
  exact isPrefixOf_append_self b.reverse a.reverse

theorem trimPre_append (pre rest : Str) : TSVStorage.trimPre pre (pre ++ rest) = rest := by
  rw [TSVStorage.trimPre]
  rw [if_pos (isPrefixOf_append_self pre rest)]
  exact List.drop_left pre rest

theorem trimSuf_append (suf a : Str) : TSVStorage.trimSuf suf (a ++ suf) = a := by
  rw [TSVStorage.trimSuf]
  rw [if_pos (isSuffixOf_append_self a suf)]
  rw [List.length_append, Nat.add_sub_cancel]
  exact List.take_left a suf

theorem parseFilenameTimestamp_WriteStations (dataDir : Str) (now : Instant)
    (stations : List Station) (hts : validDateTime now.dt = true) :
    TSVStorage.parseFilenameTimestamp dataDir
      (TSVStorage.WriteStations dataDir now stations).1 = some now.dt := by
  rw [TSVStorage.WriteStations, TSVStorage.parseFilenameTimestamp]
  have h1 : dataDir ++ '/' :: (stationsStem ++ formatCompact now.dt ++ tsvExt) =
      (dataDir ++ ['/']) ++ (stationsStem ++ formatCompact now.dt ++ tsvExt) := by
    simp
  rw [h1, trimPre_append]
  rw [show stationsStem ++ formatCompact now.dt ++ tsvExt =
        (stationsStem ++ formatCompact now.dt) ++ tsvExt from rfl]
  rw [trimSuf_append, trimPre_append]
  exact parseCompact_formatCompact now.dt hts

theorem lexLe_refl (a : Str) : lexLe a a = true := by
  rw [lexLe, lexLt_irrefl]
  rfl

theorem readTSVFile_ne_noData (dataDir : Str) (dir : Option (List DirEntry)) (path : Str) :
    TSVStorage.readTSVFile dataDir dir path ≠ .error .noData := by
  rw [TSVStorage.readTSVFile.eq_def]
  split
  · simp
  · split
    · simp
    · split <;> simp

theorem listTSVFiles_head_max (dataDir : Str) (dir : Option (List DirEntry))
    (x : Str) (t : List Str) (h : TSVStorage.listTSVFiles dataDir dir = x :: t) :
    ∀ k ∈ TSVStorage.listTSVFiles dataDir dir, lexLe k x = true := by
  intro k hk
  cases dir with
  | none => rw [TSVStorage.listTSVFiles] at h; cases h
  | some entries =>
    rw [TSVStorage.listTSVFiles] at h hk
    have hs := List.sorted_insertionSort descStr
      ((entries.filter (fun e =>
          !e.isDir && stationsStem.isPrefixOf e.name && tsvExt.isSuffixOf e.name)).map
        (fun e => dataDir ++ '/' :: e.name))
    rw [h] at hs hk
    rcases List.mem_cons.mp hk with rfl | hk2
    · exact lexLe_refl k
    · exact List.rel_of_sorted_cons hs k hk2

/-- One aggregate data point of the history API (storage.HistoricalDataPoint,
as consumed by the web handler). -/
structure HistoricalDataPoint where
  timestamp : DateTime
  totalBikes : Int
  totalEBikes : Int
  totalEmptyDocks : Int
  stationCount : Int
deriving DecidableEq, Repr

/-- The history-cache fields of web.Handler: the cached slice (none models a
nil Go slice — both the never-populated state and a cached nil recompute
result) and the time the cache was last written, in seconds. -/
structure HandlerState where
  historyCache : Option (List HistoricalDataPoint)
  historyCacheTime : Int
deriving DecidableEq, Repr

/-- historyCacheTTL = 10 * time.Minute, in seconds. -/
def historyCacheTTL : Int := 600

/-- Handler.handleHistory on its success path, sequentialized: given the cache
state, the current time and the slice GetHistoricalData would return for this
request (none is a nil slice), produce the data points written to the
response, the new state, and whether the recompute path ran. The cache is
fresh when the cached slice is non-nil and now - historyCacheTime < TTL; on a
miss the backend result is installed unconditionally. The error path of
GetHistoricalData (HTTP 500, cache untouched) is outside this model. -/
def handleHistory (s : HandlerState) (now : Int)
    (backendResult : Option (List HistoricalDataPoint)) :
    List HistoricalDataPoint × HandlerState × Bool :=
  match s.historyCache with
  | some cached =>
    if now - s.historyCacheTime < historyCacheTTL then (cached, s, false)
    else (backendResult.getD [], ⟨backendResult, now⟩, true)
  | none => (backendResult.getD [], ⟨backendResult, now⟩, true)

/-- The full snapshot key or joined path produced by the naming scheme for one
capture time: prefix + "stations_" + compact timestamp + ".tsv". -/
def snapshotKey (pre : Str) (dt : DateTime) : Str :=
  pre ++ stationsStem ++ formatCompact dt ++ tsvExt

/-- Days before the given (1-based) month in the given year. -/
def daysBeforeMonth (y m : Nat) : Nat :=
  (List.range (m - 1)).foldl (fun acc i => acc + daysInMonth y (i + 1)) 0

/-- Seconds since 0001-01-01T00:00:00Z of a civil UTC date-time (proleptic
Gregorian calendar, no leap seconds — the instant a Go time.Time denotes). -/
def epochSecs (dt : DateTime) : Int :=
  ((((dt.year - 1) * 365 + (dt.year - 1) / 4 - (dt.year - 1) / 100 + (dt.year - 1) / 400
    + daysBeforeMonth dt.year dt.month + (dt.day - 1)) * 86400
    + dt.hour * 3600 + dt.minute * 60 + dt.second : Nat) : Int)

/-- Modelled from the spec: the resolver's timestamp-from-key step
(spec section 4.5, "parses each key's embedded timestamp"), for keys of the
naming scheme: strip the configured prefix, the ".tsv" suffix and the
"stations_" stem, then parse the compact timestamp; any other string is
rejected. -/
def parseKeyTs (pre : Str) (key : Str) : Option DateTime :=
  parseCompact (TSVStorage.trimPre stationsStem
    (TSVStorage.trimSuf tsvExt (TSVStorage.trimPre pre key)))

/-- The scanning loop of the nearest-timestamp resolver: walk the keys in
order, skip unparseable ones, and replace the best candidate only when the
new absolute difference is strictly smaller. -/
def findNearestKey (pre : Str) (target : Int) : List Str → Option (Str × Nat) → Option (Str × Nat)
  | [], best => best
  | key :: rest, best =>
    match parseKeyTs pre key with
    | none => findNearestKey pre target rest best
    | some dt =>
      match best with
      | none => findNearestKey pre target rest (some (key, (epochSecs dt - target).natAbs))
      | some (bk, bd) =>
        findNearestKey pre target rest
          (if (epochSecs dt - target).natAbs < bd then
            some (key, (epochSecs dt - target).natAbs)
          else some (bk, bd))

/-- Modelled from the spec: R2Storage.GetSnapshotByTimestamp, whose
implementation is absent from the sources here (only its interface
declaration in internal/storage/interfaces.go and its caller are present).
Per spec section 4.5 the resolver enumerates the snapshot keys, parses each
key's embedded timestamp without downloading bodies, selects the key
minimizing the absolute time difference to the target with strict less-than
replacement while scanning, fails when the key set is empty or nothing
parses, and downloads only the winning key; this model returns the selected
key. -/
def GetSnapshotByTimestamp (pre : Str) (target : Int) (keys : List Str) : Option Str :=
  (findNearestKey pre target keys none).map Prod.fst

theorem parseKeyTs_snapshotKey (pre : Str) (dt : DateTime) (h : validDateTime dt = true) :
    parseKeyTs pre (snapshotKey pre dt) = some dt := by
  rw [parseKeyTs, snapshotKey]
  rw [show pre ++ stationsStem ++ formatCompact dt ++ tsvExt =
        pre ++ (stationsStem ++ formatCompact dt ++ tsvExt) by simp [List.append_assoc]]
  rw [trimPre_append]
  rw [show stationsStem ++ formatCompact dt ++ tsvExt =
        (stationsStem ++ formatCompact dt) ++ tsvExt from rfl]
  rw [trimSuf_append, trimPre_append]
  exact parseCompact_formatCompact dt h

theorem findNearestKey_go (pre : Str) (target : Int) (ts : List DateTime)
    (hv : ∀ dt ∈ ts, validDateTime dt = true) (bdt : DateTime)
    (hbv : validDateTime bdt = true)
    (hdesc : List.Pairwise (fun a b => epochSecs b < epochSecs a) ts)
    (hgt : ∀ dt ∈ ts, epochSecs dt < epochSecs bdt) :
    ∃ cdt, findNearestKey pre target (ts.map (snapshotKey pre))
        (some (snapshotKey pre bdt, (epochSecs bdt - target).natAbs)) =
        some (snapshotKey pre cdt, (epochSecs cdt - target).natAbs) ∧
      (cdt = bdt ∨ cdt ∈ ts) ∧
      (∀ dt ∈ bdt :: ts, (epochSecs cdt - target).natAbs ≤ (epochSecs dt - target).natAbs) ∧
      (∀ dt ∈ bdt :: ts, (epochSecs dt - target).natAbs = (epochSecs cdt - target).natAbs →
        epochSecs dt ≤ epochSecs cdt) := by
  induction ts generalizing bdt with
  | nil =>
    refine ⟨bdt, rfl, Or.inl rfl, ?_, ?_⟩
    · intro dt hdt
      rw [List.mem_singleton] at hdt
      subst hdt
      exact le_refl _
    · intro dt hdt
      rw [List.mem_singleton] at hdt
      subst hdt
      intro _
      exact le_refl _
  | cons t0 rest ih =>
    rw [List.map_cons, findNearestKey]
    rw [parseKeyTs_snapshotKey pre t0 (hv t0 (by simp))]
    dsimp only
    by_cases hlt : (epochSecs t0 - target).natAbs < (epochSecs bdt - target).natAbs
    · rw [if_pos hlt]
      obtain ⟨cdt, heq, hmem, hmin, htie⟩ := ih
        (fun dt hdt => hv dt (List.mem_cons_of_mem t0 hdt)) t0 (hv t0 (by simp))
        (List.Pairwise.of_cons hdesc)
        (fun dt hdt => (List.pairwise_cons.mp hdesc).1 dt hdt)
      refine ⟨cdt, heq, ?_, ?_, ?_⟩
      · rcases hmem with rfl | hmem
        · exact Or.inr (by simp)
        · exact Or.inr (List.mem_cons_of_mem t0 hmem)
      · intro dt hdt
        rcases List.mem_cons.mp hdt with rfl | hdt2
        · have h1 := hmin t0 (by simp)
          omega
        · exact hmin dt hdt2
      · intro dt hdt hdiff
        rcases List.mem_cons.mp hdt with rfl | hdt2
        · have h1 := hmin t0 (by simp)
          omega
        · exact htie dt hdt2 hdiff
    · rw [if_neg hlt]
      obtain ⟨cdt, heq, hmem, hmin, htie⟩ := ih
        (fun dt hdt => hv dt (List.mem_cons_of_mem t0 hdt)) bdt hbv
        (List.Pairwise.of_cons hdesc)
        (fun dt hdt => lt_trans ((List.pairwise_cons.mp hdesc).1 dt hdt)
          (hgt t0 (by simp)))
      refine ⟨cdt, heq, ?_, ?_, ?_⟩
      · rcases hmem with rfl | hmem
        · exact Or.inl rfl
        · exact Or.inr (List.mem_cons_of_mem t0 hmem)
      · intro dt hdt
        rcases List.mem_cons.mp hdt with rfl | hdt2
        · have h1 := hmin dt (by simp)
          omega
        · rcases List.mem_cons.mp hdt2 with rfl | hdt3
          · have h1 := hmin bdt (by simp)
            omega
          · exact hmin dt (List.mem_cons_of_mem bdt hdt3)
      · intro dt hdt hdiff
        rcases List.mem_cons.mp hdt with rfl | hdt2
        · exact htie dt (by simp) hdiff
        · rcases List.mem_cons.mp hdt2 with rfl | hdt3
          · have h1 := hmin bdt (by simp)
            have h2 := htie bdt (by simp) (by omega)
            have h3 := hgt dt (by simp)
            omega
          · exact htie dt (List.mem_cons_of_mem bdt hdt3) hdiff

theorem capturedAtOf_eq_find (rows : List Str) :
    capturedAtOf rows =
      match rows.find? (fun r => decide (10 ≤ (splitOnChar '\t' r).length)) with
      | none => zeroTime
      | some r => (parseRFC3339 ((splitOnChar '\t' r).getD 0 [])).getD zeroTime := by
  induction rows with
  | nil => rfl
  | cons x t ih =>
    rw [capturedAtOf]
    by_cases h : 10 ≤ (splitOnChar '\t' x).length
    · rw [if_pos h, List.find?_cons_of_pos _ (by simpa using h)]
    · rw [if_neg h, List.find?_cons_of_neg _ (by simpa using h), ih]

/-- Claim C1, counterexample: the codec round-trip fails as frozen. Encoding
zero stations (N = 0 is allowed by the claim) and decoding yields the zero
time as captured_at, not the encoded timestamp; and a single station whose
name contains a newline but no tab loses its row on decode, so the station
count is not reproduced. -/
theorem c1_counterexample :
    decodeSnapshotR2 (encodeSnapshot ⟨⟨2024, 1, 2, 3, 4, 5⟩, 0⟩ []) = some ([], zeroTime) ∧
    zeroTime ≠ (⟨2024, 1, 2, 3, 4, 5⟩ : DateTime) ∧
    (decodeSnapshotR2 (encodeSnapshot ⟨⟨2024, 1, 2, 3, 4, 5⟩, 0⟩
        [⟨1, ['a', '\n', 'b'], 0, 0, 0, 0, 0, 0, 0⟩])).map (fun r => r.1.length) =
      some 0 := by
  refine ⟨by decide, by decide, by decide⟩

/-- Claim C1 (amended): for any capture instant with in-range fields (year at
most 9999) and any station list whose names contain neither tab nor newline
characters, decoding the written TSV through either backend's parser
reproduces the station count, every field value and a captured_at equal to
the capture instant truncated to seconds, provided at least one station was
encoded; with zero stations the empty station list is reproduced but
captured_at is the zero time. -/
theorem c1_codec_roundtrip (now : Instant) (stations : List Station)
    (hts : validDateTime now.dt = true)
    (hname : ∀ st ∈ stations, ('\t' : Char) ∉ st.name ∧ ('\n' : Char) ∉ st.name) :
    (stations ≠ [] →
      decodeSnapshotR2 (encodeSnapshot now stations) = some (stations, now.dt) ∧
      decodeSnapshotTSV (encodeSnapshot now stations) = some (stations, now.dt)) ∧
    (stations = [] →
      decodeSnapshotR2 (encodeSnapshot now stations) = some ([], zeroTime) ∧
      decodeSnapshotTSV (encodeSnapshot now stations) = some ([], zeroTime)) := by
  constructor
  · intro hne
    exact ⟨decodeSnapshotR2_encodeSnapshot now stations hts hname hne,
           decodeSnapshotTSV_encodeSnapshot now stations hts hname hne⟩
  · rintro rfl
    exact ⟨decodeSnapshotR2_encode_nil now, decodeSnapshotTSV_encode_nil now⟩

/-- Witness for c1_codec_roundtrip at one concrete snapshot (a sub-second
remainder of 500ns on the capture instant, one station with negative
longitude). -/
theorem c1_codec_roundtrip_witness :
    decodeSnapshotR2 (encodeSnapshot ⟨⟨2026, 2, 5, 14, 47, 14⟩, 500⟩
        [⟨1, ("Riv").data, 51529163, -109971, 3, 1, 2, 29, 37⟩]) =
      some ([⟨1, ("Riv").data, 51529163, -109971, 3, 1, 2, 29, 37⟩],
        ⟨2026, 2, 5, 14, 47, 14⟩) :=
  ((c1_codec_roundtrip ⟨⟨2026, 2, 5, 14, 47, 14⟩, 500⟩
      [⟨1, ("Riv").data, 51529163, -109971, 3, 1, 2, 29, 37⟩]
      (by decide) (by decide)).1 (by decide)).1

/-- Claim C2, counterexample: ListSnapshots does not sort — it only reverses
the substrate's enumeration. A substrate page yielding two keys newest-first
comes back oldest-first, not in descending order. -/
theorem c2_counterexample :
    R2Storage.ListSnapshots
        [[("snapshots/stations_20240102_000000.tsv").data,
          ("snapshots/stations_20240101_000000.tsv").data]] =
      [("snapshots/stations_20240101_000000.tsv").data,
       ("snapshots/stations_20240102_000000.tsv").data] ∧
    ¬ List.Pairwise descStr
      (R2Storage.ListSnapshots
        [[("snapshots/stations_20240102_000000.tsv").data,
          ("snapshots/stations_20240101_000000.tsv").data]]) := by
  refine ⟨rfl, by decide⟩

/-- Claim C2 (amended): ListSnapshots returns exactly the keys of the
paginated listing, reversed; the backend performs no sort of its own, so the
result is in descending string order exactly when the substrate yields keys
ascending (as S3-compatible listings do). -/
theorem c2_list_snapshots (pages : List (List Str))
    (hasc : List.Pairwise (fun a b => lexLe a b = true) pages.flatten) :
    (∀ k, k ∈ R2Storage.ListSnapshots pages ↔ k ∈ pages.flatten) ∧
    List.Pairwise descStr (R2Storage.ListSnapshots pages) := by
  constructor
  · intro k
    rw [R2Storage.ListSnapshots, List.mem_reverse]
  · rw [R2Storage.ListSnapshots, List.pairwise_reverse]
    exact hasc

/-- Witness for c2_list_snapshots on a two-page ascending listing. -/
theorem c2_list_snapshots_witness :
    (∀ k, k ∈ R2Storage.ListSnapshots
        [[("snapshots/stations_20240101_000000.tsv").data],
         [("snapshots/stations_20240102_000000.tsv").data]] ↔
      k ∈ [[("snapshots/stations_20240101_000000.tsv").data],
           [("snapshots/stations_20240102_000000.tsv").data]].flatten) ∧
    List.Pairwise descStr (R2Storage.ListSnapshots
        [[("snapshots/stations_20240101_000000.tsv").data],
         [("snapshots/stations_20240102_000000.tsv").data]]) :=
  c2_list_snapshots _ (by decide)

/-- Claim C3: ReadLatestStations fails with the no-snapshots error exactly
when the set of snapshot-shaped files is empty (a missing data directory
included); otherwise it reads the file whose key is lexicographically
greatest and returns that read's outcome. -/
theorem c3_read_latest (dataDir : Str) (dir : Option (List DirEntry)) :
    (TSVStorage.ReadLatestStations dataDir dir = .error .noData ↔
      TSVStorage.listTSVFiles dataDir dir = []) ∧
    (TSVStorage.listTSVFiles dataDir dir ≠ [] →
      ∃ m, m ∈ TSVStorage.listTSVFiles dataDir dir ∧
        (∀ k ∈ TSVStorage.listTSVFiles dataDir dir, lexLe k m = true) ∧
        TSVStorage.ReadLatestStations dataDir dir =
          TSVStorage.readTSVFile dataDir dir m) := by
  cases hls : TSVStorage.listTSVFiles dataDir dir with
  | nil =>
    constructor
    · rw [TSVStorage.ReadLatestStations, hls]
      simp
    · intro hne
      exact absurd rfl hne
  | cons f t =>
    constructor
    · rw [TSVStorage.ReadLatestStations, hls]
      dsimp only
      constructor
      · intro h
        exact absurd h (readTSVFile_ne_noData dataDir dir f)
      · intro h
        cases h
    · intro _
      refine ⟨f, List.mem_cons_self f t, ?_, ?_⟩
      · intro k hk
        exact listTSVFiles_head_max dataDir dir f t hls k (by rw [hls]; exact hk)
      · rw [TSVStorage.ReadLatestStations, hls]

/-- Witness for c3_read_latest: a missing directory yields the no-data error,
and a directory with two snapshot files reads the lexicographically greater
one. -/
theorem c3_read_latest_witness :
    TSVStorage.ReadLatestStations (("data").data) none = .error .noData ∧
    (∃ m, m ∈ TSVStorage.listTSVFiles (("data").data)
        (some [⟨("stations_20240101_000000.tsv").data, false, ("h\n").data⟩,
               ⟨("stations_20240102_000000.tsv").data, false, ("h\n").data⟩]) ∧
      (∀ k ∈ TSVStorage.listTSVFiles (("data").data)
          (some [⟨("stations_20240101_000000.tsv").data, false, ("h\n").data⟩,
                 ⟨("stations_20240102_000000.tsv").data, false, ("h\n").data⟩]),
        lexLe k m = true) ∧
      TSVStorage.ReadLatestStations (("data").data)
          (some [⟨("stations_20240101_000000.tsv").data, false, ("h\n").data⟩,
                 ⟨("stations_20240102_000000.tsv").data, false, ("h\n").data⟩]) =
        TSVStorage.readTSVFile (("data").data)
          (some [⟨("stations_20240101_000000.tsv").data, false, ("h\n").data⟩,
                 ⟨("stations_20240102_000000.tsv").data, false, ("h\n").data⟩]) m) :=
  ⟨(c3_read_latest (("data").data) none).1.mpr rfl,
   (c3_read_latest (("data").data) _).2 (by decide)⟩

/-- Claim C4: for any capture instant with in-range fields (year at most
9999), parsing the timestamp back out of the filename WriteStations derives
from it recovers exactly the instant truncated to seconds. -/
theorem c4_name_parse_inverse (dataDir : Str) (now : Instant) (stations : List Station)
    (hts : validDateTime now.dt = true) :
    TSVStorage.parseFilenameTimestamp dataDir
      (TSVStorage.WriteStations dataDir now stations).1 = some now.dt :=
  parseFilenameTimestamp_WriteStations dataDir now stations hts

/-- Witness for c4_name_parse_inverse at one concrete write. -/
theorem c4_name_parse_inverse_witness :
    TSVStorage.parseFilenameTimestamp (("data").data)
      (TSVStorage.WriteStations (("data").data) ⟨⟨2024, 2, 29, 23, 59, 59⟩, 987⟩ []).1 =
      some ⟨2024, 2, 29, 23, 59, 59⟩ :=
  c4_name_parse_inverse (("data").data) ⟨⟨2024, 2, 29, 23, 59, 59⟩, 987⟩ [] (by decide)

/-- Claim C6, counterexample: captured_at is not taken from the first data
row. Here the first data row ("xxx") has an unparseable timestamp cell, so
the claim predicts the zero time; but that row has fewer than ten columns and
is skipped before the first-row check, so decode takes captured_at from the
second data row instead and returns a non-zero time. -/
theorem c6_counterexample :
    (decodeSnapshotR2
        (("h\nxxx\n2024-01-02T03:04:05Z\t1\tA\t1.0\t2.0\t1\t1\t1\t1\t1\n").data)).map
      Prod.snd = some ⟨2024, 1, 2, 3, 4, 5⟩ ∧
    parseRFC3339 (("xxx").data) = none ∧
    (⟨2024, 1, 2, 3, 4, 5⟩ : DateTime) ≠ zeroTime := by
  refine ⟨by decide, by decide, by decide⟩

/-- Claim C6 (amended): decode succeeds on every body that has at least one
line, and takes captured_at from the first data row having at least ten
tab-separated columns, parsed with the fixed RFC 3339 format; when that parse
fails, or no such row exists, captured_at is the zero time — in both decode
paths. -/
theorem c6_timestamp_leniency (body : Str) (hne : goLines body ≠ []) :
    ∃ s1 s2,
      decodeSnapshotR2 body = some (s1,
        match (goLines body).tail.find?
            (fun r => decide (10 ≤ (splitOnChar '\t' r).length)) with
        | none => zeroTime
        | some r => (parseRFC3339 ((splitOnChar '\t' r).getD 0 [])).getD zeroTime) ∧
      decodeSnapshotTSV body = some (s2,
        match (goLines body).tail.find?
            (fun r => decide (10 ≤ (splitOnChar '\t' r).length)) with
        | none => zeroTime
        | some r => (parseRFC3339 ((splitOnChar '\t' r).getD 0 [])).getD zeroTime) := by
  obtain ⟨l, ls, hl⟩ := List.exists_cons_of_ne_nil hne
  refine ⟨stationsOf decodeRowR2 ls, stationsOf decodeRowTSV ls, ?_, ?_⟩
  · rw [decodeSnapshotR2, hl]
    dsimp only
    rw [capturedAtOf_eq_find]
    rw [List.tail_cons]
  · rw [decodeSnapshotTSV, hl]
    dsimp only
    rw [capturedAtOf_eq_find]
    rw [List.tail_cons]

/-- Witness for c6_timestamp_leniency: when the first ten-column row's
timestamp cell fails the RFC 3339 parse, decode still succeeds and the
captured-at value is the zero time. -/
theorem c6_timestamp_leniency_witness :
    (decodeSnapshotR2 (("h\nbadts\t1\tA\t1\t2\t3\t4\t5\t6\t7\n").data)).map Prod.snd =
      some zeroTime := by
  obtain ⟨s1, s2, h1, h2⟩ :=
    c6_timestamp_leniency (("h\nbadts\t1\tA\t1\t2\t3\t4\t5\t6\t7\n").data) (by decide)
  rw [h1]
  rw [Option.map_some']
  dsimp only
  decide

/-- Claim C7 (spec-modelled): the nearest-timestamp resolver, applied to the
descending key enumeration of any non-empty set of snapshot times with
in-range fields, selects a key of the set whose embedded time minimizes the
absolute difference to the target instant, and among equidistant times the
most recent one — the strict less-than replacement never displaces an
earlier-scanned (more recent) equally-distant candidate. -/
theorem c7_nearest_match (pre : Str) (target : Int) (ts : List DateTime)
    (hv : ∀ dt ∈ ts, validDateTime dt = true)
    (hdesc : List.Pairwise (fun a b => epochSecs b < epochSecs a) ts)
    (hne : ts ≠ []) :
    ∃ cdt, GetSnapshotByTimestamp pre target (ts.map (snapshotKey pre)) =
        some (snapshotKey pre cdt) ∧ cdt ∈ ts ∧
      (∀ dt ∈ ts, (epochSecs cdt - target).natAbs ≤ (epochSecs dt - target).natAbs) ∧
      (∀ dt ∈ ts, (epochSecs dt - target).natAbs = (epochSecs cdt - target).natAbs →
        epochSecs dt ≤ epochSecs cdt) := by
  obtain ⟨t0, rest, rfl⟩ := List.exists_cons_of_ne_nil hne
  rw [GetSnapshotByTimestamp, List.map_cons, findNearestKey]
  rw [parseKeyTs_snapshotKey pre t0 (hv t0 (by simp))]
  dsimp only
  obtain ⟨cdt, heq, hmem, hmin, htie⟩ := findNearestKey_go pre target rest
    (fun dt hdt => hv dt (List.mem_cons_of_mem t0 hdt)) t0 (hv t0 (by simp))
    (List.Pairwise.of_cons hdesc)
    (fun dt hdt => (List.pairwise_cons.mp hdesc).1 dt hdt)
  rw [heq]
  refine ⟨cdt, rfl, ?_, ?_, ?_⟩
  · rcases hmem with rfl | hmem
    · exact List.mem_cons_self _ _
    · exact List.mem_cons_of_mem t0 hmem
  · intro dt hdt
    exact hmin dt hdt
  · intro dt hdt
    exact htie dt hdt

/-- Witness for c7_nearest_match: keys at T, T+10s and T+30s. With target
T+4s the closest key T is selected; with target exactly at the midpoint T+5s
the more recent of the two equidistant keys, T+10s, is selected. -/
theorem c7_nearest_match_witness :
    GetSnapshotByTimestamp (("snapshots/").data)
        (epochSecs ⟨2024, 1, 1, 0, 0, 0⟩ + 4)
        ([⟨2024, 1, 1, 0, 0, 30⟩, ⟨2024, 1, 1, 0, 0, 10⟩,
          (⟨2024, 1, 1, 0, 0, 0⟩ : DateTime)].map (snapshotKey (("snapshots/").data))) =
      some (snapshotKey (("snapshots/").data) ⟨2024, 1, 1, 0, 0, 0⟩) ∧
    GetSnapshotByTimestamp (("snapshots/").data)
        (epochSecs ⟨2024, 1, 1, 0, 0, 0⟩ + 5)
        ([⟨2024, 1, 1, 0, 0, 30⟩, ⟨2024, 1, 1, 0, 0, 10⟩,
          (⟨2024, 1, 1, 0, 0, 0⟩ : DateTime)].map (snapshotKey (("snapshots/").data))) =
      some (snapshotKey (("snapshots/").data) ⟨2024, 1, 1, 0, 0, 10⟩) := by
  obtain ⟨cdt1, he1, hm1, hmin1, htie1⟩ := c7_nearest_match (("snapshots/").data)
    (epochSecs ⟨2024, 1, 1, 0, 0, 0⟩ + 4)
    [⟨2024, 1, 1, 0, 0, 30⟩, ⟨2024, 1, 1, 0, 0, 10⟩, ⟨2024, 1, 1, 0, 0, 0⟩]
    (by decide) (by decide) (by decide)
  obtain ⟨cdt2, he2, hm2, hmin2, htie2⟩ := c7_nearest_match (("snapshots/").data)
    (epochSecs ⟨2024, 1, 1, 0, 0, 0⟩ + 5)
    [⟨2024, 1, 1, 0, 0, 30⟩, ⟨2024, 1, 1, 0, 0, 10⟩, ⟨2024, 1, 1, 0, 0, 0⟩]
    (by decide) (by decide) (by decide)
  constructor
  · rw [he1]
    congr 1
    fin_cases hm1 <;> first
      | rfl
      | (exfalso
         have := hmin1 ⟨2024, 1, 1, 0, 0, 0⟩ (by decide)
         revert this
         decide)
  · rw [he2]
    congr 1
    fin_cases hm2 <;> first
      | rfl
      | (exfalso
         have h1 := hmin2 ⟨2024, 1, 1, 0, 0, 10⟩ (by decide)
         have h2 := htie2 ⟨2024, 1, 1, 0, 0, 10⟩ (by decide)
         revert h1 h2
         decide)

theorem snapshotKey_lt_iff (pre : Str) (a b : DateTime) (ha : validDateTime a = true)
    (hb : validDateTime b = true) :
    (lexLt (snapshotKey pre a) (snapshotKey pre b) = true) ↔ dtLt a b := by
  have hk : ∀ dt : DateTime, snapshotKey pre dt =
      (pre ++ stationsStem) ++ (formatCompact dt ++ tsvExt) := by
    intro dt
    rw [snapshotKey]
    simp [List.append_assoc]
  rw [hk, hk, lexLt_append_left]
  rw [lexLt_append_of_length_eq _ _ _ _ (by rw [formatCompact_length, formatCompact_length])]
  rw [lexLt_irrefl]
  simp only [Bool.false_eq_true, and_false, or_false]
  exact formatCompact_lt_iff a b ha hb

/-- Claim C8: over keys produced by the naming scheme for timestamps with
in-range fields, descending string order is exactly descending chronological
order of the embedded timestamps, whatever the common key prefix. -/
theorem c8_key_order (pre : Str) (ts : List DateTime)
    (hv : ∀ dt ∈ ts, validDateTime dt = true) :
    List.Pairwise (fun k1 k2 => lexLt k2 k1 = true) (ts.map (snapshotKey pre)) ↔
      List.Pairwise (fun a b => dtLt b a) ts := by
  rw [List.pairwise_map]
  constructor
  · intro h
    exact h.imp_of_mem (fun ha hb hr =>
      (snapshotKey_lt_iff pre _ _ (hv _ hb) (hv _ ha)).mp hr)
  · intro h
    exact h.imp_of_mem (fun ha hb hr =>
      (snapshotKey_lt_iff pre _ _ (hv _ hb) (hv _ ha)).mpr hr)

/-- Witness for c8_key_order on two concrete timestamps a second apart across
a day boundary. -/
theorem c8_key_order_witness :
    (List.Pairwise (fun k1 k2 => lexLt k2 k1 = true)
        ([⟨2024, 1, 2, 0, 0, 0⟩, (⟨2024, 1, 1, 23, 59, 59⟩ : DateTime)].map
          (snapshotKey (("snapshots/").data))) ↔
      List.Pairwise (fun a b => dtLt b a)
        [⟨2024, 1, 2, 0, 0, 0⟩, (⟨2024, 1, 1, 23, 59, 59⟩ : DateTime)]) ∧
    List.Pairwise (fun a b => dtLt b a)
      [⟨2024, 1, 2, 0, 0, 0⟩, (⟨2024, 1, 1, 23, 59, 59⟩ : DateTime)] :=
  ⟨c8_key_order (("snapshots/").data) _ (by decide), by decide⟩

/-- Claim C9, counterexample: two sequential history requests at the same
instant (certainly within one TTL window of each other) both execute the
recompute path when GetHistoricalData returns a nil slice — the nil result is
installed in the cache, the freshness check requires a non-nil cache, so the
second request misses again and recomputes. "At most one recompute across the
two requests" fails for this backend result. -/
theorem c9_counterexample :
    (handleHistory ⟨none, 0⟩ 0 none).2.2 = true ∧
    (handleHistory (handleHistory ⟨none, 0⟩ 0 none).2.1 0 none).2.2 = true := by
  refine ⟨rfl, rfl⟩

/-- Claim C9 (amended): for two sequential history requests within one TTL
window of each other, if the cache is empty or stale at the first request and
the backend returns a non-nil slice, then the first request recomputes and
installs it, the second request is served from the cache without recomputing,
and both requests return the same data points. -/
theorem c9_history_cache (s : HandlerState) (t1 t2 : Int)
    (d : List HistoricalDataPoint) (b2 : Option (List HistoricalDataPoint))
    (hseq : t1 ≤ t2) (hwin : t2 - t1 < historyCacheTTL)
    (hmiss : s.historyCache = none ∨ historyCacheTTL ≤ t1 - s.historyCacheTime) :
    (handleHistory s t1 (some d)).1 = d ∧
    (handleHistory s t1 (some d)).2.2 = true ∧
    (handleHistory (handleHistory s t1 (some d)).2.1 t2 b2).1 = d ∧
    (handleHistory (handleHistory s t1 (some d)).2.1 t2 b2).2.2 = false := by
  have h1 : handleHistory s t1 (some d) = (d, ⟨some d, t1⟩, true) := by
    rw [handleHistory]
    rcases hmiss with hm | hm
    · rw [hm]
      rfl
    · cases hc : s.historyCache with
      | none => rfl
      | some cached =>
        dsimp only
        rw [if_neg (by omega)]
        rfl
  have h2 : handleHistory (⟨some d, t1⟩ : HandlerState) t2 b2 = (d, ⟨some d, t1⟩, false) := by
    rw [handleHistory]
    dsimp only
    rw [if_pos hwin]
  rw [h1, h2]
  exact ⟨rfl, rfl, rfl, rfl⟩

/-- Witness for c9_history_cache: a fresh handler, two requests ten seconds
apart, one data point. -/
theorem c9_history_cache_witness :
    (handleHistory ⟨none, 0⟩ 100 (some [⟨⟨2024, 1, 1, 0, 0, 0⟩, 5, 1, 2, 1⟩])).1 =
      [⟨⟨2024, 1, 1, 0, 0, 0⟩, 5, 1, 2, 1⟩] ∧
    (handleHistory ⟨none, 0⟩ 100 (some [⟨⟨2024, 1, 1, 0, 0, 0⟩, 5, 1, 2, 1⟩])).2.2 = true ∧
    (handleHistory (handleHistory ⟨none, 0⟩ 100
        (some [⟨⟨2024, 1, 1, 0, 0, 0⟩, 5, 1, 2, 1⟩])).2.1 110 none).1 =
      [⟨⟨2024, 1, 1, 0, 0, 0⟩, 5, 1, 2, 1⟩] ∧
    (handleHistory (handleHistory ⟨none, 0⟩ 100
        (some [⟨⟨2024, 1, 1, 0, 0, 0⟩, 5, 1, 2, 1⟩])).2.1 110 none).2.2 = false :=
  c9_history_cache ⟨none, 0⟩ 100 110 [⟨⟨2024, 1, 1, 0, 0, 0⟩, 5, 1, 2, 1⟩] none
    (by decide) (by decide) (Or.inl rfl)

/-- Claim C10: both writers derive the snapshot name and every data row's
timestamp column from the same capture instant, so the name-embedded compact
timestamp and the RFC 3339 captured_at of every row recover the same
second-precision value (the instant's sub-second part appears in neither). -/
theorem c10_key_body_consistency (pre dataDir : Str) (now : Instant)
    (stations : List Station) (hts : validDateTime now.dt = true) :
    parseKeyTs pre (R2Storage.WriteStations pre now stations).1 = some now.dt ∧
    TSVStorage.parseFilenameTimestamp dataDir
      (TSVStorage.WriteStations dataDir now stations).1 = some now.dt ∧
    ∀ st ∈ stations,
      parseRFC3339 ((splitOnChar '\t' (stationRow now.dt st)).getD 0 []) = some now.dt := by
  refine ⟨parseKeyTs_snapshotKey pre now.dt hts,
    parseFilenameTimestamp_WriteStations dataDir now stations hts, ?_⟩
  intro st _
  rw [splitTabs_stationRow now.dt hts st]
  simp only [List.getD_cons_zero]
  exact parseRFC3339_formatRFC3339 now.dt hts

/-- Witness for c10_key_body_consistency at one concrete write with a
non-zero sub-second remainder. -/
theorem c10_key_body_consistency_witness :
    parseKeyTs (("snapshots/").data)
      (R2Storage.WriteStations (("snapshots/").data) ⟨⟨2025, 12, 31, 6, 7, 8⟩, 999⟩
        [⟨2, ("Phi").data, 51499607, -197574, 3, 1, 2, 29, 37⟩]).1 =
      some ⟨2025, 12, 31, 6, 7, 8⟩ ∧
    parseRFC3339 ((splitOnChar '\t' (stationRow ⟨2025, 12, 31, 6, 7, 8⟩
        ⟨2, ("Phi").data, 51499607, -197574, 3, 1, 2, 29, 37⟩)).getD 0 []) =
      some ⟨2025, 12, 31, 6, 7, 8⟩ := by
  obtain ⟨h1, h2, h3⟩ := c10_key_body_consistency (("snapshots/").data) (("data").data)
    ⟨⟨2025, 12, 31, 6, 7, 8⟩, 999⟩ [⟨2, ("Phi").data, 51499607, -197574, 3, 1, 2, 29, 37⟩]
    (by decide)
  exact ⟨h1, h3 _ (by simp)⟩

end CityCycling
